import Mathlib

/-!
Verification development for the ollama-smartmathpad expression evaluation and
reconciliation engine.

The definitions below are a shallow embedding of the JavaScript source:
  * `src/unnamed/part_002` (the local evaluation engine: `stripInlineComment`,
    `removeTags`, `extractTag`, `normalizeVarName`, `normalizeUnits`,
    `tokenizeNaturalGlue`, `preprocessExpression`, `substituteVariables`,
    `looksLikeMath`, `buildEvaluator`, `classifyFormat`, `evaluateDocument`);
  * `src/src/NeoCalcUI.jsx` (`isSelfReference`, `validateAiFormula`,
    `validateAiResponseSchema`, the reconciliation `useEffect`, and the
    AI-response handling in `callLocalLLM`).

Modelling conventions:
  * JavaScript numbers are modelled as exact rationals plus the special values
    `Infinity`, `-Infinity` and `NaN` (an arbitrary-precision idealisation of
    IEEE doubles: the embedding does not model rounding of individual float
    operations).
  * Dynamic code execution (`Function` constructor) is modelled by an explicit
    tokenizer, parser and evaluator for the arithmetic expression fragment the
    engine feeds it.  A thrown exception is modelled as `none`.
  * The ambient JavaScript global environment reachable from dynamically built
    code (e.g. `Math.random`, host globals) is modelled by an explicit
    `Ambient` parameter; `pureAmbient` provides no ambient bindings.
  * Regex-based string transformations are modelled by explicit left-to-right
    scanners with the same leftmost-match, no-overlap semantics, including
    word-boundary (`\b`) behaviour where the source regexes use it.
-/

namespace SmartMathPad

/-! ## Character classes (JavaScript regex semantics) -/

/-- JavaScript `\s` (restricted to the ASCII whitespace the app can see). -/
def jsIsSpace (c : Char) : Bool :=
  c = ' ' || c = '\t' || c = '\n' || c = '\r' || c.val = 11 || c.val = 12

/-- JavaScript `\w` : `[A-Za-z0-9_]`. -/
def isWordC (c : Char) : Bool := c.isAlphanum || c = '_'

/-- Class `[A-Za-z0-9]`. -/
def isAlnumC (c : Char) : Bool := c.isAlphanum

def isDigitC (c : Char) : Bool := c.isDigit

/-- Numeric value of a digit string. -/
def digitsToNat (l : List Char) : ℕ :=
  l.foldl (fun acc c => 10 * acc + (c.toNat - 48)) 0

/-- Case-insensitive character comparison (`i` regex flag, ASCII). -/
def ciEqC (a b : Char) : Bool := a.toLower = b.toLower

def toLowerList (l : List Char) : List Char := l.map Char.toLower

/-- JavaScript `String#trim` on a character list. -/
def jsTrimL (l : List Char) : List Char :=
  ((l.dropWhile jsIsSpace).reverse.dropWhile jsIsSpace).reverse

def jsTrim (s : String) : String := ⟨jsTrimL s.data⟩

def lowerStr (s : String) : String := ⟨toLowerList s.data⟩

/-- Case-insensitive "starts with" for character lists. -/
def ciStarts : List Char → List Char → Bool
  | [], _ => true
  | _ :: _, [] => false
  | p :: ps, c :: cs => ciEqC p c && ciStarts ps cs

/-- Substring containment (JavaScript `String#includes`). -/
def containsSub (hay needle : List Char) : Bool :=
  match hay with
  | [] => needle.isEmpty
  | _ :: rest => needle.isPrefixOf hay || containsSub rest needle

/-- Word-boundary test between an optional previous character and a current
character (JavaScript `\b`: boundary iff exactly one side is a `\w` char;
outside the string counts as non-word). -/
def boundaryB (prev : Option Char) (cur : Char) : Bool :=
  (match prev with | none => false | some p => isWordC p) ≠ isWordC cur

/-- Test for `\b` after the end of a match: `last` is the final matched character,
`next` the first unmatched one (none at end of input). -/
def boundaryA (last : Char) (next : Option Char) : Bool :=
  isWordC last ≠ (match next with | none => false | some n => isWordC n)

/-! ## Generic leftmost-match scanners

`replaceScanB m prev l` models a global (`g` flag) regex replace: at each
position the matcher `m` sees the previous original character (for `\b`) and
the remaining input; on `some (rep, k)` the match consumed `1 + k` characters,
which are replaced by `rep`, and scanning resumes after the match (JavaScript
regexes never rescan replaced text). -/

def lastConsumed (c : Char) (rest : List Char) (k : ℕ) : Char :=
  (c :: rest.take k).getLastD c

def replaceScanBF (m : Option Char → List Char → Option (List Char × ℕ)) :
    ℕ → Option Char → List Char → List Char
  | 0, _, l => l
  | _ + 1, _, [] => []
  | fuel + 1, prev, c :: rest =>
    match m prev (c :: rest) with
    | some (rep, k) =>
        rep ++ replaceScanBF m fuel (some (lastConsumed c rest k)) (rest.drop k)
    | none => c :: replaceScanBF m fuel (some c) rest

/-- Fuel wrapper: every match consumes at least one character, so the input
length is enough fuel. -/
def replaceScanB (m : Option Char → List Char → Option (List Char × ℕ))
    (prev : Option Char) (l : List Char) : List Char :=
  replaceScanBF m l.length prev l

/-- Scanner for matchers that ignore the preceding character. -/
def replaceScan (m : List Char → Option (List Char × ℕ)) (l : List Char) :
    List Char :=
  replaceScanB (fun _ s => m s) none l

/-- Leftmost-match search (regex `match` without `g`). -/
def findScan {α : Type} (m : Option Char → List Char → Option α)
    (prev : Option Char) (l : List Char) : Option α :=
  match l with
  | [] => none
  | c :: rest =>
    match m prev (c :: rest) with
    | some a => some a
    | none => findScan m (some c) rest

/-! ## Exact rational numbers

A kernel-reducible rational type (numerator, positive denominator, always
kept in lowest terms by the smart constructor), so that concrete runs of the
embedded engine can be checked by `rfl`/`decide`. -/

/-- Euclid's algorithm with explicit fuel (structural recursion). -/
def gcdF : ℕ → ℕ → ℕ → ℕ
  | 0, _, n => n
  | _ + 1, 0, n => n
  | f + 1, m, n => gcdF f (n % m) m

def natGcd (m n : ℕ) : ℕ := gcdF (m + n + 1) m n

/-- An exact rational: `num / den` with `den > 0` and the fraction reduced
(maintained by `mkQ`). -/
structure Q where
  num : ℤ
  den : ℕ
deriving DecidableEq, Repr

def Q.ofInt (n : ℤ) : Q := ⟨n, 1⟩

instance (n : ℕ) : OfNat Q n := ⟨⟨n, 1⟩⟩

/-- Normalizing constructor (`d ≠ 0` expected; `d = 0` yields the unused
sentinel `0`). -/
def mkQ (n d : ℤ) : Q :=
  if d = 0 then ⟨0, 1⟩
  else
    let s : ℤ := if d < 0 then -1 else 1
    let n' := s * n
    let d' := (s * d).toNat
    let g := natGcd n'.natAbs d'
    if g = 0 then ⟨0, 1⟩ else ⟨n' / (g : ℤ), d' / g⟩

def qAdd (a b : Q) : Q := mkQ (a.num * b.den + b.num * a.den) (a.den * b.den)

def qSub (a b : Q) : Q := mkQ (a.num * b.den - b.num * a.den) (a.den * b.den)

def qMul (a b : Q) : Q := mkQ (a.num * b.num) (a.den * b.den)

/-- Division (`b ≠ 0` expected; the `b = 0` case is filtered by the JS
semantics before dividing). -/
def qDiv (a b : Q) : Q := mkQ (a.num * b.den) (a.den * b.num)

def qNeg (a : Q) : Q := ⟨-a.num, a.den⟩

def qAbs (a : Q) : Q := ⟨(a.num.natAbs : ℤ), a.den⟩

def qLt (a b : Q) : Bool := a.num * b.den < b.num * a.den

def qLe (a b : Q) : Bool := a.num * b.den ≤ b.num * a.den

def qMin (a b : Q) : Q := if qLe a b then a else b

def qMax (a b : Q) : Q := if qLe a b then b else a

/-- Floor of a rational as an integer (`den > 0`). -/
def qFloorI (a : Q) : ℤ := a.num.fdiv a.den

/-- Ceiling of a rational as an integer. -/
def qCeilI (a : Q) : ℤ := -((-a.num).fdiv a.den)

/-- Truncation toward zero (JavaScript integer division behaviour). -/
def qTruncI (a : Q) : ℤ := a.num / a.den

def qPowNat (a : Q) : ℕ → Q
  | 0 => 1
  | n + 1 => qMul a (qPowNat a n)

def qPowInt (a : Q) (e : ℤ) : Q :=
  if e ≥ 0 then qPowNat a e.toNat else qDiv 1 (qPowNat a (-e).toNat)

/-- Bit length with fuel (structural). -/
def bitsF : ℕ → ℕ → ℕ
  | 0, _ => 0
  | f + 1, n => if n = 0 then 0 else 1 + bitsF f (n / 2)

/-- Integer square root by fuelled binary search. -/
def isqrtGo (n : ℕ) : ℕ → ℕ → ℕ → ℕ
  | 0, lo, _ => lo
  | f + 1, lo, hi =>
    if hi ≤ lo + 1 then lo
    else
      let mid := (lo + hi) / 2
      if mid * mid ≤ n then isqrtGo n f mid hi else isqrtGo n f lo mid

/-- Integer square root (largest `r` with `r * r ≤ n`). -/
def isqrtN (n : ℕ) : ℕ :=
  if n = 0 then 0 else isqrtGo n (2 * bitsF (n + 1) n + 4) 0 (n + 1)

instance : Add Q := ⟨qAdd⟩
instance : Sub Q := ⟨qSub⟩
instance : Mul Q := ⟨qMul⟩
instance : Div Q := ⟨qDiv⟩
instance : Neg Q := ⟨qNeg⟩
instance : Min Q := ⟨qMin⟩
instance : Max Q := ⟨qMax⟩
instance : LT Q := ⟨fun a b => qLt a b = true⟩
instance : LE Q := ⟨fun a b => qLe a b = true⟩

instance (a b : Q) : Decidable (a < b) :=
  inferInstanceAs (Decidable (qLt a b = true))

instance (a b : Q) : Decidable (a ≤ b) :=
  inferInstanceAs (Decidable (qLe a b = true))

instance : NatCast Q := ⟨fun n => ⟨n, 1⟩⟩

instance : HPow Q ℕ Q := ⟨qPowNat⟩

instance : HPow Q ℤ Q := ⟨qPowInt⟩

/-! ## JavaScript values -/

/-- A JavaScript runtime value, as far as the evaluated expressions can
produce one.  Finite numbers are exact rationals (see header note). -/
inductive JSVal where
  | num (q : Q)
  | inf
  | ninf
  | nan
  | nullv
  | undef
  | str (s : String)
  | fnv (name : String)
  | objv (name : String)
deriving DecidableEq, Repr

/-- Model of `Number.isFinite`. -/
def JSVal.isFiniteNum : JSVal → Option Q
  | .num q => some q
  | _ => none

/-- Decimal digits of the fractional part of `num/den` by long division,
stopping on remainder 0; at most `fuel` digits (idealised printing of a
non-terminating expansion, see header note). -/
def fracDigits : ℕ → ℕ → ℕ → List Char
  | 0, _, _ => []
  | _ + 1, 0, _ => []
  | fuel + 1, rem, den =>
    let d := rem * 10 / den
    let rem' := rem * 10 % den
    (Char.ofNat (48 + d)) :: fracDigits fuel rem' den

/-- Model of `String(q)` for a finite JavaScript number (exact for integers and
terminating decimals, the only values the verified claims exercise). -/
def numToStr (q : Q) : String :=
  if q.den = 1 then toString q.num
  else
    let sign := if q < 0 then "-" else ""
    let n := q.num.natAbs
    let intPart := n / q.den
    let rem := n % q.den
    sign ++ toString intPart ++ "." ++ ⟨fracDigits 17 rem q.den⟩

/-- Model of `String(v)` for the values that can reach string conversion. -/
def jsValToStr : JSVal → String
  | .num q => numToStr q
  | .inf => "Infinity"
  | .ninf => "-Infinity"
  | .nan => "NaN"
  | .nullv => "null"
  | .undef => "undefined"
  | .str s => s
  | .fnv n => "function " ++ n
  | .objv n => "[object " ++ n ++ "]"

/-! ## Ordered JavaScript objects (string-keyed, insertion ordered) -/

/-- A JavaScript object with numeric values: association list in insertion
order; assigning an existing key keeps its position, a new key is appended. -/
abbrev JsObj := List (String × Q)

def JsObj.get? (o : JsObj) (k : String) : Option Q :=
  (List.find? (fun p => p.1 = k) o).map (·.2)

def JsObj.set (o : JsObj) (k : String) (v : Q) : JsObj :=
  if (List.any o (fun p => p.1 = k)) then
    List.map (fun p => if p.1 = k then (k, v) else p) o
  else
    List.append o [(k, v)]

/-- Is `s` a canonical array-index key (`Object.keys` lists these first)? -/
def isArrayIndexKey (s : String) : Bool :=
  let l := s.data
  (!l.isEmpty) && l.all isDigitC &&
    (s = "0" || l.headD '0' ≠ '0') && digitsToNat l < 4294967295

def insAscNat (x : String) : List String → List String
  | [] => [x]
  | y :: ys =>
    if digitsToNat y.data ≤ digitsToNat x.data then y :: insAscNat x ys
    else x :: y :: ys

/-- The `Object.keys` order: canonical array indices ascending, then the
remaining string keys in insertion order. -/
def jsKeysOrder (ks : List String) : List String :=
  let idx := ks.filter isArrayIndexKey
  let rest := ks.filter (fun k => !isArrayIndexKey k)
  (idx.foldl (fun acc x => insAscNat x acc) []) ++ rest

def JsObj.keys (o : JsObj) : List String :=
  jsKeysOrder (List.map Prod.fst o)

/-- Stable insertion keeping earlier elements whose length is ≥ the new
element's length ahead of it. -/
def insAfterGE (x : String) : List String → List String
  | [] => [x]
  | y :: ys => if y.length ≥ x.length then y :: insAfterGE x ys else x :: y :: ys

/-- Model of `names.sort((a, b) => b.length - a.length)` — stable, longest first. -/
def sortByLenDesc (l : List String) : List String :=
  l.foldl (fun acc x => insAfterGE x acc) []

def isWordO (prev : Option Char) : Bool :=
  match prev with | none => false | some p => isWordC p

/-! ## part_002: helper functions of the local evaluation engine -/

/-- Model of `s.replace` removing the first `//` and everything after (the inputs contain no newline). -/
def cutComment : List Char → List Char
  | [] => []
  | '/' :: '/' :: _ => []
  | c :: rest => c :: cutComment rest

/-- Source `stripInlineComment`: strip from the first `//` and trim. -/
def stripInlineComment (s : String) : String :=
  jsTrim ⟨cutComment s.data⟩

def tagBodyC (c : Char) : Bool := isWordC c || c = '-'

/-- Matcher for `#([A-Za-z0-9][\w-]*)`; returns (capture, consumed-1). -/
def hashTagM (l : List Char) : Option (List Char × ℕ) :=
  match l with
  | '#' :: d :: rest =>
    if isAlnumC d then
      let run := rest.takeWhile tagBodyC
      some (d :: run, 1 + run.length)
    else none
  | _ => none

/-- Source `removeTags`: `line.replace(/#([A-Za-z0-9][\w-]*)/g, '').trim()`. -/
def removeTags (line : String) : String :=
  jsTrim ⟨replaceScan (fun l => (hashTagM l).map (fun p => ([], p.2))) line.data⟩

/-- Matcher for `/\btag\s*:\s*([A-Za-z0-9][\w\s-]*)/i`, returning the
captured group. -/
def explicitTagM (prev : Option Char) (l : List Char) : Option (List Char) :=
  if isWordO prev then none
  else if ciStarts ['t', 'a', 'g'] l then
    let r1 := (l.drop 3).dropWhile jsIsSpace
    match r1 with
    | ':' :: r2 =>
      let r3 := r2.dropWhile jsIsSpace
      match r3 with
      | d :: r4 =>
        if isAlnumC d then
          some (d :: r4.takeWhile (fun c => isWordC c || jsIsSpace c || c = '-'))
        else none
      | [] => none
    | _ => none
  else none

/-- Source `extractTag`: explicit `tag: name` first (lowercased and trimmed), then
hashtag `#name` (lowercased). -/
def extractTag (line : String) : Option String :=
  match findScan explicitTagM none line.data with
  | some cap => some (jsTrim ⟨toLowerList cap⟩)
  | none =>
    match findScan (fun _ l => hashTagM l) none line.data with
    | some (cap, _) => some ⟨toLowerList cap⟩
    | none => none

/-- Model of `raw.trim().replace(/[^A-Za-z0-9_]+/g, '_').replace(/^_+|_+$/g, '') || null` -/
def normalizeVarName (raw : String) : Option String :=
  let t := jsTrimL raw.data
  let collapsed := replaceScan
    (fun l =>
      match l with
      | c :: rest =>
        if !isWordC c then some (['_'], (rest.takeWhile (fun x => !isWordC x)).length)
        else none
      | [] => none) t
  let stripped := ((collapsed.dropWhile (· = '_')).reverse.dropWhile (· = '_')).reverse
  if stripped.isEmpty then none else some ⟨stripped⟩

/-- Try one regex alternation branch `word` + optional `s` + `\b` against `l`
(case-insensitive); returns consumed length. -/
def tryUnitWord (word : List Char) (l : List Char) : Option ℕ :=
  if ciStarts word l then
    let after := l.drop word.length
    match after with
    | c :: rest =>
      if ciEqC c 's' && !isWordO rest.head? then some (word.length + 1)
      else if !isWordC c then some word.length
      else none
    | [] => some word.length
  else none

def tryUnitAlts (words : List (List Char)) (l : List Char) : Option ℕ :=
  match words with
  | [] => none
  | w :: ws =>
    match tryUnitWord w l with
    | some n => some n
    | none => tryUnitAlts ws l

/-- Pass 1 of `normalizeUnits`:
`/\/\s*(?:hr|hour|day|week|month|year|person|unit|item)s?\b/gi` → `''`. -/
def rateUnitM (l : List Char) : Option (List Char × ℕ) :=
  match l with
  | '/' :: rest =>
    let sp := rest.takeWhile jsIsSpace
    let r1 := rest.drop sp.length
    match tryUnitAlts
        (["hr", "hour", "day", "week", "month", "year", "person", "unit",
          "item"].map String.data) r1 with
    | some n => some ([], sp.length + n)
    | none => none
  | _ => none

/-- Parse a leading `\d+(?:\.\d+)?` (returns its length). -/
def numLitLen (l : List Char) : Option ℕ :=
  let ds := l.takeWhile isDigitC
  if ds.isEmpty then none
  else
    match l.drop ds.length with
    | '.' :: r2 =>
      let fs := r2.takeWhile isDigitC
      if fs.isEmpty then some ds.length else some (ds.length + 1 + fs.length)
    | _ => some ds.length

/-- Pass 2 of `normalizeUnits`:
`/(\d+(?:\.\d+)?)\s*(?:hours?|hrs?|days?|weeks?|months?|years?|mins?|secs?)\b/gi`
→ `'$1'`. -/
def numUnitM (l : List Char) : Option (List Char × ℕ) :=
  match numLitLen l with
  | none => none
  | some nl =>
    let r1 := l.drop nl
    let sp := r1.takeWhile jsIsSpace
    let r2 := r1.drop sp.length
    match tryUnitAlts
        (["hour", "hr", "day", "week", "month", "year", "min", "sec"].map
          String.data) r2 with
    | some n => some (l.take nl, nl + sp.length + n - 1)
    | none => none

def normalizeUnitsL (l : List Char) : List Char :=
  replaceScan numUnitM (replaceScan rateUnitM l)

/-- Source `normalizeUnits` of part_002. -/
def normalizeUnits (expr : String) : String :=
  ⟨normalizeUnitsL expr.data⟩

/-- The glue word list of `tokenizeNaturalGlue`, in source order. -/
def glueWords : List (List Char) :=
  ["per", "of", "on", "at", "for", "a", "an", "the", "is", "equals", "equal",
   "hours", "hour", "hrs", "hr", "days", "day", "weeks", "week", "months",
   "month", "years", "year", "minutes", "minute", "mins", "min", "seconds",
   "second", "secs", "sec", "items", "item", "units", "unit", "pieces",
   "piece", "pcs", "pc", "flat", "fee", "each"].map String.data

def glueAlts (words : List (List Char)) (l : List Char) : Option ℕ :=
  match words with
  | [] => none
  | w :: ws =>
    if ciStarts w l && !isWordO ((l.drop w.length).head?) then some w.length
    else glueAlts ws l

def tokenizeNaturalGlueL (l : List Char) : List Char :=
  replaceScanB
    (fun prev s =>
      if isWordO prev then none
      else (glueAlts glueWords s).map (fun n => ([' '], n - 1)))
    none l

/-- Source `tokenizeNaturalGlue`: whole-word case-insensitive replacement of each
glue word by a space. -/
def tokenizeNaturalGlue (expr : String) : String :=
  ⟨tokenizeNaturalGlueL expr.data⟩

/-- Consumed length of `(?:,[0-9]{3})*` groups. -/
def eatGroups : List Char → ℕ
  | ',' :: a :: b :: c :: rest =>
    if isDigitC a && isDigitC b && isDigitC c then 4 + eatGroups rest else 0
  | _ => 0

/-- Matcher for
`/\$\s*([0-9]{1,3}(?:,[0-9]{3})*(?:\.[0-9]+)?|[0-9]+(?:\.[0-9]+)?)/g`,
replaced by the capture without commas. -/
def currencyM (l : List Char) : Option (List Char × ℕ) :=
  match l with
  | '$' :: rest =>
    let sp := rest.takeWhile jsIsSpace
    let r1 := rest.drop sp.length
    let ds := r1.takeWhile isDigitC
    if ds.isEmpty then none
    else
      let d1 := min 3 ds.length
      let r2 := r1.drop d1
      let g := eatGroups r2
      let r3 := r2.drop g
      let fr :=
        match r3 with
        | '.' :: r4 =>
          let fs := r4.takeWhile isDigitC
          if fs.isEmpty then 0 else 1 + fs.length
        | _ => 0
      let numLen := d1 + g + fr
      let capture := r1.take numLen
      some (capture.filter (· ≠ ','), sp.length + numLen)
  | _ => none

/-- Matcher for `/([0-9]+(?:\.[0-9]+)?)\s*%/g` → `($1/100)`. -/
def percentM (l : List Char) : Option (List Char × ℕ) :=
  match numLitLen l with
  | none => none
  | some nl =>
    let r1 := l.drop nl
    let sp := r1.takeWhile jsIsSpace
    match r1.drop sp.length with
    | '%' :: _ => some ('(' :: l.take nl ++ "/100)".data, nl + sp.length)
    | _ => none

/-- Matcher collapsing a whitespace run to a single space (`/\s+/g`). -/
def wsCollapseM (l : List Char) : Option (List Char × ℕ) :=
  match l with
  | c :: rest =>
    if jsIsSpace c then some ([' '], (rest.takeWhile jsIsSpace).length) else none
  | [] => none

/-- Source `preprocessExpression` of part_002, all transformation steps in source
order. -/
def preprocessExpression (expr : String) : String :=
  let s0 := jsTrimL expr.data
  let s1 := normalizeUnitsL s0
  let s2 := s1.map (fun c =>
    if c = '×' then '*' else if c = '÷' then '/' else if c = '−' then '-' else c)
  let s3 := replaceScan currencyM s2
  let s4 := replaceScan percentM s3
  let s5 := replaceScan
    (fun l => match l with | '^' :: _ => some (['*', '*'], 0) | _ => none) s4
  let s6 := tokenizeNaturalGlueL s5
  let s7 := replaceScan wsCollapseM s6
  ⟨jsTrimL s7⟩

/-- One whole-word case-insensitive replacement
(`new RegExp('\\b' + escaped + '\\b', 'gi')`). -/
def replaceWordCI (name : List Char) (rep : List Char) (l : List Char) :
    List Char :=
  replaceScanB
    (fun prev s =>
      match s with
      | c :: _ =>
        if name ≠ [] && ciStarts name s && boundaryB prev c &&
            boundaryA ((s.take name.length).getLastD c)
              ((s.drop name.length).head?) then
          some (rep, name.length - 1)
        else none
      | [] => none)
    none l

/-- Source `substituteVariables` of part_002: names sorted longest first (stable),
each replaced whole-word case-insensitively by `String(value)`.  All scope
values are finite rationals, so the source's `Number.isFinite` guard is
always true here. -/
def substituteVariables (expr : String) (scope : JsObj) : String :=
  if scope.isEmpty then expr
  else
    let sortedNames := sortByLenDesc (JsObj.keys scope)
    ⟨sortedNames.foldl
      (fun acc name =>
        match JsObj.get? scope name with
        | some v => replaceWordCI name.data (numToStr v).data acc
        | none => acc)
      expr.data⟩

/-- Split a character list at a separator character. -/
def splitChar (sep : Char) (l : List Char) : List (List Char) :=
  match l with
  | [] => [[]]
  | c :: rest =>
    let r := splitChar sep rest
    if c = sep then [] :: r
    else
      match r with
      | h :: t => (c :: h) :: t
      | [] => [[c]]

def allDigits (l : List Char) : Bool := !l.isEmpty && l.all isDigitC

/-- Date test `^\d{1,2}\/\d{1,2}\/\d{2,4}$`. -/
def dateLike (l : List Char) : Bool :=
  match splitChar '/' l with
  | [a, b, c] =>
    allDigits a && allDigits b && allDigits c &&
      a.length ≤ 2 && b.length ≤ 2 && 2 ≤ c.length && c.length ≤ 4
  | _ => false

/-- Time test `^\d{1,2}:\d{2}(:\d{2})?$`. -/
def timeLike (l : List Char) : Bool :=
  match splitChar ':' l with
  | [a, b] => allDigits a && a.length ≤ 2 && allDigits b && b.length = 2
  | [a, b, c] =>
    allDigits a && a.length ≤ 2 && allDigits b && b.length = 2 &&
      allDigits c && c.length = 2
  | _ => false

def isPhoneSep (c : Char) : Bool := c = '-' || c = '.' || jsIsSpace c

def phoneShape (l : List Char) (a m b : ℕ) : Bool :=
  let p1 := l.take 3
  let r1 := l.drop 3
  let s1 := r1.take a
  let r2 := r1.drop a
  let p2 := r2.take m
  let r3 := r2.drop m
  let s2 := r3.take b
  let r4 := r3.drop b
  l.length = 3 + a + m + b + 4 && allDigits p1 && p1.length = 3 &&
    s1.all isPhoneSep && allDigits p2 && p2.length = m &&
    s2.all isPhoneSep && allDigits r4 && r4.length = 4

/-- Phone test `^\d{3}[-.\s]?\d{3,4}[-.\s]?\d{4}$`. -/
def phoneLike (l : List Char) : Bool :=
  phoneShape l 0 3 0 || phoneShape l 0 3 1 || phoneShape l 0 4 0 ||
  phoneShape l 0 4 1 || phoneShape l 1 3 0 || phoneShape l 1 3 1 ||
  phoneShape l 1 4 0 || phoneShape l 1 4 1

/-- Tail of the email test after an `@`: `\S+\.\S+`. -/
def emailTail (seen : Bool) : List Char → Bool
  | [] => false
  | c :: rest =>
    if jsIsSpace c then false
    else
      (c = '.' && seen &&
        (match rest.head? with | some n => !jsIsSpace n | none => false)) ||
      emailTail true rest

/-- Email test `\S+@\S+\.\S+` (unanchored search: some non-space char directly before
an `@`, then `\S+`, a dot, and a following non-space char). -/
def emailLike (l : List Char) : Bool :=
  (findScan
    (fun prev s =>
      match s with
      | '@' :: rest =>
        if (match prev with | some p => !jsIsSpace p | none => false) &&
            emailTail false rest then some () else none
      | _ => none)
    none l).isSome

def isHexC (c : Char) : Bool :=
  c.isDigit || ('a' ≤ c && c ≤ 'f') || ('A' ≤ c && c ≤ 'F')

/-- UUID-like test: 8 hex digits, a dash, 4 hex digits, a dash (anchored at
the start). -/
def uuidLike (l : List Char) : Bool :=
  let p1 := l.take 8
  let r1 := l.drop 8
  p1.length = 8 && p1.all isHexC &&
    (match r1 with
     | '-' :: r2 =>
       let p2 := r2.take 4
       p2.length = 4 && p2.all isHexC &&
         (match r2.drop 4 with | '-' :: _ => true | _ => false)
     | _ => false)

def mathCallWords : List (List Char) :=
  ["sqrt", "abs", "min", "max", "round", "floor", "ceil", "pow", "log",
   "exp"].map String.data

def mathCallAlt (words : List (List Char)) (l : List Char) : Bool :=
  match words with
  | [] => false
  | w :: ws =>
    (ciStarts w l &&
      (match ((l.drop w.length).dropWhile jsIsSpace) with
       | '(' :: _ => true
       | _ => false)) ||
    mathCallAlt ws l

/-- Function-call test `\b(sqrt|abs|min|max|round|floor|ceil|pow|log|exp)\s*\(` (case-insensitive). -/
def hasMathCall (l : List Char) : Bool :=
  (findScan
    (fun prev s =>
      if !isWordO prev && mathCallAlt mathCallWords s then some () else none)
    none l).isSome

def isOpC (c : Char) : Bool :=
  c = '+' || c = '-' || c = '*' || c = '/' || c = '^' || c = '(' || c = ')'

/-- Source `looksLikeMath` of part_002: negative patterns first, then positive. -/
def looksLikeMath (s : String) : Bool :=
  let l := s.data
  if dateLike l then false
  else if timeLike l then false
  else if phoneLike l then false
  else if "http://".data.isPrefixOf l || "https://".data.isPrefixOf l then false
  else if emailLike l then false
  else if uuidLike l then false
  else
    l.any (fun c => c.isDigit || c = '$' || c = '%') || l.any isOpC ||
      hasMathCall l

/-- Source `classifyFormat`: `/\$/.test(rawLine) ? 'currency' : 'number'`. -/
def classifyFormat (rawLine : String) : String :=
  if rawLine.data.any (· = '$') then "currency" else "number"

/-- Sum-directive regex `^sum\s*:\s*([A-Za-z0-9][\w\s-]*)\s*$` (case-insensitive) applied to a whole string; the
greedy capture retains trailing whitespace (the source lowercases but does
not trim it). -/
def sumLineMatch (s : String) : Option String :=
  let l := s.data
  if ciStarts ['s', 'u', 'm'] l then
    match (l.drop 3).dropWhile jsIsSpace with
    | ':' :: r2 =>
      match r2.dropWhile jsIsSpace with
      | d :: r4 =>
        if isAlnumC d && r4.all (fun c => isWordC c || jsIsSpace c || c = '-')
        then some ⟨toLowerList (d :: r4)⟩
        else none
      | [] => none
    | _ => none
  else none

/-- Whole-word test `\btotal\b` (case-insensitive) on the raw line. -/
def hasWordTotal (raw : String) : Bool :=
  (findScan
    (fun prev s =>
      if !isWordO prev && ciStarts "total".data s &&
          !isWordO ((s.drop 5).head?) then some () else none)
    none raw.data).isSome

/-! ## The dynamic-code evaluator (`Function` constructor)

The engine builds JavaScript code of the shape `return (expr);` from
arithmetic expression strings and invokes it.  We model the arithmetic
fragment it can receive: numeric literals, (dotted) identifiers, calls,
`+ - * / % **`, parentheses and the comma operator.  A thrown exception
(syntax error, unbound identifier, calling a non-function) is `none`. -/

/-- The ambient JavaScript global environment visible to dynamically built
code: `lookup` resolves global (dotted) names not covered by the built-in
table, `call` supplies results of ambient function calls such as
`Math.random()`. -/
structure Ambient where
  lookup : String → Option JSVal
  call : String → List JSVal → Option JSVal

/-- Ambient with no host bindings beyond the built-ins. -/
def pureAmbient : Ambient := ⟨fun _ => none, fun _ _ => none⟩

inductive BinOp where
  | add | sub | mul | div | mod | pow | seq
deriving DecidableEq, Repr

inductive JExpr where
  | lit (q : Q)
  | nullLit
  | name (path : String)
  | call (path : String) (args : List JExpr)
  | unop (neg : Bool) (e : JExpr)
  | bin (op : BinOp) (a b : JExpr)
deriving Repr

inductive Tok where
  | num (q : Q)
  | name (s : String)
  | lparen | rparen | comma | plus | minus | star | slash | pct | pow2
deriving DecidableEq, Repr

def identStartC (c : Char) : Bool := c.isAlpha || c = '_' || c = '$'

def identContC (c : Char) : Bool := c.isAlphanum || c = '_' || c = '$'

/-- Lex a numeric literal (`123`, `1.5`, `.5`, `1e-3`); returns value and
consumed length. -/
def lexNumber (l : List Char) : Option (Q × ℕ) :=
  let ds := l.takeWhile isDigitC
  let r1 := l.drop ds.length
  let fracP : Option (List Char × ℕ) :=
    match r1 with
    | '.' :: r2 =>
      let fs := r2.takeWhile isDigitC
      if ds.isEmpty && fs.isEmpty then none else some (fs, 1 + fs.length)
    | _ => if ds.isEmpty then none else some ([], 0)
  match fracP with
  | none => none
  | some (fs, fl) =>
    let base : Q := (digitsToNat ds : Q) + (digitsToNat fs : Q) / ((10 : Q) ^ fs.length)
    let consumed := ds.length + fl
    let r3 := l.drop consumed
    match r3 with
    | 'e' :: rest | 'E' :: rest =>
      let (sgn, rest2, sl) :=
        match rest with
        | '+' :: t => ((1 : ℤ), t, 1)
        | '-' :: t => ((-1 : ℤ), t, 1)
        | _ => ((1 : ℤ), rest, 0)
      let es := rest2.takeWhile isDigitC
      if es.isEmpty then some (base, consumed)
      else
        let e : ℤ := sgn * (digitsToNat es : ℤ)
        some (base * (10 : Q) ^ e, consumed + 1 + sl + es.length)
    | _ => some (base, consumed)

/-- Lex a dotted identifier path (`Math.random`); returns the path characters
and consumed length. -/
def lexPathExt : ℕ → List Char → List Char × ℕ
  | 0, _ => ([], 0)
  | fuel + 1, l =>
    match l with
    | '.' :: d :: rest =>
      if identStartC d then
        let seg := (d :: rest).takeWhile identContC
        let (more, n) := lexPathExt fuel ((d :: rest).drop seg.length)
        ('.' :: seg ++ more, 1 + seg.length + n)
      else ([], 0)
    | _ => ([], 0)

def tokenizeAux : ℕ → List Char → Option (List Tok)
  | 0, [] => some []
  | 0, _ :: _ => none
  | _ + 1, [] => some []
  | fuel + 1, c :: rest =>
    if jsIsSpace c then tokenizeAux fuel rest
    else if isDigitC c || (c = '.' && (rest.headD ' ').isDigit) then
      match lexNumber (c :: rest) with
      | none => none
      | some (q, k) =>
        let after := (c :: rest).drop k
        if identStartC (after.headD ' ') then none
        else (tokenizeAux fuel after).map (Tok.num q :: ·)
    else if identStartC c then
      let seg := (c :: rest).takeWhile identContC
      let (ext, n) := lexPathExt rest.length ((c :: rest).drop seg.length)
      (tokenizeAux fuel ((c :: rest).drop (seg.length + n))).map
        (Tok.name ⟨seg ++ ext⟩ :: ·)
    else
      match c, rest with
      | '*', '*' :: rest2 => (tokenizeAux fuel rest2).map (Tok.pow2 :: ·)
      | '*', _ => (tokenizeAux fuel rest).map (Tok.star :: ·)
      | '(', _ => (tokenizeAux fuel rest).map (Tok.lparen :: ·)
      | ')', _ => (tokenizeAux fuel rest).map (Tok.rparen :: ·)
      | ',', _ => (tokenizeAux fuel rest).map (Tok.comma :: ·)
      | '+', _ => (tokenizeAux fuel rest).map (Tok.plus :: ·)
      | '-', _ => (tokenizeAux fuel rest).map (Tok.minus :: ·)
      | '/', _ => (tokenizeAux fuel rest).map (Tok.slash :: ·)
      | '%', _ => (tokenizeAux fuel rest).map (Tok.pct :: ·)
      | _, _ => none

def tokenize (l : List Char) : Option (List Tok) :=
  tokenizeAux (l.length + 1) l

mutual

def parseSeqE : ℕ → List Tok → Option (JExpr × List Tok)
  | 0, _ => none
  | fuel + 1, ts =>
    match parseAddE fuel ts with
    | none => none
    | some (e, r) => parseSeqLoop fuel e r

def parseSeqLoop : ℕ → JExpr → List Tok → Option (JExpr × List Tok)
  | 0, _, _ => none
  | fuel + 1, left, ts =>
    match ts with
    | .comma :: r =>
      match parseAddE fuel r with
      | none => none
      | some (e, r2) => parseSeqLoop fuel (.bin .seq left e) r2
    | _ => some (left, ts)

def parseAddE : ℕ → List Tok → Option (JExpr × List Tok)
  | 0, _ => none
  | fuel + 1, ts =>
    match parseMulE fuel ts with
    | none => none
    | some (e, r) => parseAddLoop fuel e r

def parseAddLoop : ℕ → JExpr → List Tok → Option (JExpr × List Tok)
  | 0, _, _ => none
  | fuel + 1, left, ts =>
    match ts with
    | .plus :: r =>
      match parseMulE fuel r with
      | none => none
      | some (e, r2) => parseAddLoop fuel (.bin .add left e) r2
    | .minus :: r =>
      match parseMulE fuel r with
      | none => none
      | some (e, r2) => parseAddLoop fuel (.bin .sub left e) r2
    | _ => some (left, ts)

def parseMulE : ℕ → List Tok → Option (JExpr × List Tok)
  | 0, _ => none
  | fuel + 1, ts =>
    match parseUnaryE fuel ts with
    | none => none
    | some (e, r) => parseMulLoop fuel e r

def parseMulLoop : ℕ → JExpr → List Tok → Option (JExpr × List Tok)
  | 0, _, _ => none
  | fuel + 1, left, ts =>
    match ts with
    | .star :: r =>
      match parseUnaryE fuel r with
      | none => none
      | some (e, r2) => parseMulLoop fuel (.bin .mul left e) r2
    | .slash :: r =>
      match parseUnaryE fuel r with
      | none => none
      | some (e, r2) => parseMulLoop fuel (.bin .div left e) r2
    | .pct :: r =>
      match parseUnaryE fuel r with
      | none => none
      | some (e, r2) => parseMulLoop fuel (.bin .mod left e) r2
    | _ => some (left, ts)

/-- Unary `+`/`-`; a unary expression directly followed by `**` is a
JavaScript SyntaxError. -/
def parseUnaryE : ℕ → List Tok → Option (JExpr × List Tok)
  | 0, _ => none
  | fuel + 1, ts =>
    match ts with
    | .minus :: r =>
      match parseUnaryE fuel r with
      | none => none
      | some (e, r2) =>
        if r2.headD .comma = .pow2 then none else some (.unop true e, r2)
    | .plus :: r =>
      match parseUnaryE fuel r with
      | none => none
      | some (e, r2) =>
        if r2.headD .comma = .pow2 then none else some (.unop false e, r2)
    | _ => parsePowE fuel ts

def parsePowE : ℕ → List Tok → Option (JExpr × List Tok)
  | 0, _ => none
  | fuel + 1, ts =>
    match parseAtomE fuel ts with
    | none => none
    | some (b, r) =>
      match r with
      | .pow2 :: r2 =>
        match parseUnaryE fuel r2 with
        | none => none
        | some (e, r3) => some (.bin .pow b e, r3)
      | _ => some (b, r)

def parseAtomE : ℕ → List Tok → Option (JExpr × List Tok)
  | 0, _ => none
  | fuel + 1, ts =>
    match ts with
    | .num q :: r => some (.lit q, r)
    | .name "null" :: r => some (.nullLit, r)
    | .name n :: .lparen :: .rparen :: r => some (.call n [], r)
    | .name n :: .lparen :: r =>
      match parseArgsE fuel r with
      | none => none
      | some (args, r2) => some (.call n args, r2)
    | .name n :: r => some (.name n, r)
    | .lparen :: r =>
      match parseSeqE fuel r with
      | none => none
      | some (e, .rparen :: r2) => some (e, r2)
      | some _ => none
    | _ => none

def parseArgsE : ℕ → List Tok → Option (List JExpr × List Tok)
  | 0, _ => none
  | fuel + 1, ts =>
    match parseAddE fuel ts with
    | none => none
    | some (e, .comma :: r) =>
      match parseArgsE fuel r with
      | none => none
      | some (args, r2) => some (e :: args, r2)
    | some (e, .rparen :: r) => some ([e], r)
    | some _ => none

end

/-- Parse the expression string handed to the `Function` constructor. -/
def parseJs (s : String) : Option JExpr :=
  match tokenize s.data with
  | none => none
  | some ts =>
    match parseSeqE (8 * (ts.length + 2)) ts with
    | some (e, []) => some e
    | _ => none

/-! ### Numeric semantics of the modelled operators -/

/-- JavaScript ToNumber coercion onto the numeric constructors.  The only
strings our pipeline can produce come from object/function concatenation and
never parse as numbers, so `str` coerces to `nan`. -/
def toNumericV : JSVal → JSVal
  | .num q => .num q
  | .inf => .inf
  | .ninf => .ninf
  | .nullv => .num 0
  | _ => .nan

def jsNeg (v : JSVal) : JSVal :=
  match toNumericV v with
  | .num q => .num (-q)
  | .inf => .ninf
  | .ninf => .inf
  | _ => .nan

def isStringish : JSVal → Bool
  | .str _ => true
  | .fnv _ => true
  | .objv _ => true
  | _ => false

def addNumV : JSVal → JSVal → JSVal
  | .num a, .num b => .num (a + b)
  | .num _, .inf => .inf
  | .num _, .ninf => .ninf
  | .inf, .num _ => .inf
  | .ninf, .num _ => .ninf
  | .inf, .inf => .inf
  | .ninf, .ninf => .ninf
  | _, _ => .nan

def jsAddV (a b : JSVal) : JSVal :=
  if isStringish a || isStringish b then
    .str (jsValToStr a ++ jsValToStr b)
  else addNumV (toNumericV a) (toNumericV b)

def subNumV : JSVal → JSVal → JSVal
  | .num a, .num b => .num (a - b)
  | .num _, .inf => .ninf
  | .num _, .ninf => .inf
  | .inf, .num _ => .inf
  | .ninf, .num _ => .ninf
  | .inf, .ninf => .inf
  | .ninf, .inf => .ninf
  | _, _ => .nan

def mulNumV : JSVal → JSVal → JSVal
  | .num a, .num b => .num (a * b)
  | .num a, .inf => if a = 0 then .nan else if a > 0 then .inf else .ninf
  | .num a, .ninf => if a = 0 then .nan else if a > 0 then .ninf else .inf
  | .inf, .num b => if b = 0 then .nan else if b > 0 then .inf else .ninf
  | .ninf, .num b => if b = 0 then .nan else if b > 0 then .ninf else .inf
  | .inf, .inf => .inf
  | .inf, .ninf => .ninf
  | .ninf, .inf => .ninf
  | .ninf, .ninf => .inf
  | _, _ => .nan

def divNumV : JSVal → JSVal → JSVal
  | .num a, .num b =>
    if b = 0 then (if a > 0 then .inf else if a < 0 then .ninf else .nan)
    else .num (a / b)
  | .num _, .inf => .num 0
  | .num _, .ninf => .num 0
  | .inf, .num b => if b ≥ 0 then .inf else .ninf
  | .ninf, .num b => if b ≥ 0 then .ninf else .inf
  | _, _ => .nan

def modNumV : JSVal → JSVal → JSVal
  | .num a, .num b =>
    if b = 0 then .nan else .num (a - b * Q.ofInt (qTruncI (a / b)))
  | .num a, .inf => .num a
  | .num a, .ninf => .num a
  | _, _ => .nan

/-- JavaScript `**` / `Math.pow`.  Exact for integer exponents; a positive
non-integer power of a positive base is idealised as `nan` (never reached by
the verified claims). -/
def powNumV : JSVal → JSVal → JSVal
  | _, .num 0 => .num 1
  | .nan, _ => .nan
  | .num a, .num b =>
    if b.den = 1 then
      if b.num ≥ 0 then .num (a ^ b.num.toNat)
      else if a = 0 then .inf
      else .num (1 / a ^ (-b.num).toNat)
    else if a < 0 then .nan
    else if a = 0 then (if b > 0 then .num 0 else .inf)
    else .nan
  | .num a, .inf =>
    if a = 1 ∨ a = -1 then .nan else if qLt 1 (qAbs a) then .inf else .num 0
  | .num a, .ninf =>
    if a = 1 ∨ a = -1 then .nan else if qLt 1 (qAbs a) then .num 0 else .inf
  | .inf, .num b => if b > 0 then .inf else .num 0
  | .ninf, .num b =>
    if b > 0 then (if b.den = 1 && b.num % 2 = 1 then .ninf else .inf)
    else .num 0
  | .inf, .inf => .inf
  | .inf, .ninf => .num 0
  | .ninf, .inf => .inf
  | .ninf, .ninf => .num 0
  | _, _ => .nan

def jsBinV (op : BinOp) (a b : JSVal) : JSVal :=
  match op with
  | .add => jsAddV a b
  | .sub => subNumV (toNumericV a) (toNumericV b)
  | .mul => mulNumV (toNumericV a) (toNumericV b)
  | .div => divNumV (toNumericV a) (toNumericV b)
  | .mod => modNumV (toNumericV a) (toNumericV b)
  | .pow => powNumV (toNumericV a) (toNumericV b)
  | .seq => b

/-! ### The SAFE_FUNCS function set (constants.js) -/

/-- Exact IEEE double value of `Math.PI` (odd numerator, so reduced). -/
def mathPI : Q := Q.mk 884279719003555 281474976710656

/-- Exact IEEE double value of `Math.E` (odd numerator, so reduced). -/
def mathE : Q := Q.mk 6121026514868073 2251799813685248

def sqrtSem (v : JSVal) : JSVal :=
  match v with
  | .num q =>
    if q < 0 then .nan
    else
      let ns := isqrtN q.num.toNat
      let ds := isqrtN q.den
      if ns * ns = q.num.toNat ∧ ds * ds = q.den then .num (mkQ ns ds)
      else .nan
  | .inf => .inf
  | _ => .nan

def minFold (a v : JSVal) : JSVal :=
  match a, v with
  | .nan, _ => .nan
  | _, .nan => .nan
  | .inf, x => x
  | x, .inf => x
  | .ninf, _ => .ninf
  | _, .ninf => .ninf
  | .num x, .num y => .num (min x y)
  | _, _ => .nan

def maxFold (a v : JSVal) : JSVal :=
  match a, v with
  | .nan, _ => .nan
  | _, .nan => .nan
  | .ninf, x => x
  | x, .ninf => x
  | .inf, _ => .inf
  | _, .inf => .inf
  | .num x, .num y => .num (max x y)
  | _, _ => .nan

/-- Semantics of the SAFE_FUNCS / `Math.*` functions.  Transcendental
results other than the exact special cases are idealised as `nan`; no
verified claim depends on them. -/
def applyFn (amb : Ambient) (f : String) (args : List JSVal) : Option JSVal :=
  let a0 := toNumericV (args.getD 0 .undef)
  let a1 := toNumericV (args.getD 1 .undef)
  match f with
  | "sqrt" => some (sqrtSem a0)
  | "abs" =>
    some (match a0 with
          | .num q => .num (qAbs q) | .inf => .inf | .ninf => .inf | _ => .nan)
  | "round" =>
    some (match a0 with
          | .num q => .num (Q.ofInt (qFloorI (q + mkQ 1 2)))
          | .inf => .inf | .ninf => .ninf | _ => .nan)
  | "floor" =>
    some (match a0 with
          | .num q => .num (Q.ofInt (qFloorI q))
          | .inf => .inf | .ninf => .ninf | _ => .nan)
  | "ceil" =>
    some (match a0 with
          | .num q => .num (Q.ofInt (qCeilI q))
          | .inf => .inf | .ninf => .ninf | _ => .nan)
  | "min" => some ((args.map toNumericV).foldl minFold .inf)
  | "max" => some ((args.map toNumericV).foldl maxFold .ninf)
  | "pow" => some (powNumV a0 a1)
  | "log" =>
    some (match a0 with
          | .num q =>
            if q = 1 then .num 0 else if q = 0 then .ninf
            else if q < 0 then .nan else .nan
          | .inf => .inf | _ => .nan)
  | "log10" =>
    some (match a0 with
          | .num q =>
            if q = 1 then .num 0 else if q = 0 then .ninf
            else if q < 0 then .nan else .nan
          | .inf => .inf | _ => .nan)
  | "exp" =>
    some (match a0 with
          | .num q => if q = 0 then .num 1 else .nan
          | .inf => .inf | .ninf => .num 0 | _ => .nan)
  | "sin" =>
    some (match a0 with
          | .num q => if q = 0 then .num 0 else .nan
          | _ => .nan)
  | "cos" =>
    some (match a0 with
          | .num q => if q = 0 then .num 1 else .nan
          | _ => .nan)
  | "tan" =>
    some (match a0 with
          | .num q => if q = 0 then .num 0 else .nan
          | _ => .nan)
  | _ => amb.call f args

/-- The built-in globals visible to code built with the `Function`
constructor (`Math` and the global numeric constants; other `Math`
properties are `undefined`). -/
def builtinGlobal (path : String) : Option JSVal :=
  if path = "Infinity" then some .inf
  else if path = "NaN" then some .nan
  else if path = "undefined" then some .undef
  else if path = "Math" then some (.objv "Math")
  else if path = "Math.PI" then some (.num mathPI)
  else if path = "Math.E" then some (.num mathE)
  else if path = "Math.sqrt" then some (.fnv "sqrt")
  else if path = "Math.abs" then some (.fnv "abs")
  else if path = "Math.round" then some (.fnv "round")
  else if path = "Math.floor" then some (.fnv "floor")
  else if path = "Math.ceil" then some (.fnv "ceil")
  else if path = "Math.min" then some (.fnv "min")
  else if path = "Math.max" then some (.fnv "max")
  else if path = "Math.pow" then some (.fnv "pow")
  else if path = "Math.log" then some (.fnv "log")
  else if path = "Math.log10" then some (.fnv "log10")
  else if path = "Math.exp" then some (.fnv "exp")
  else if path = "Math.sin" then some (.fnv "sin")
  else if path = "Math.cos" then some (.fnv "cos")
  else if path = "Math.tan" then some (.fnv "tan")
  else if path = "Math.random" then some (.fnv "Math.random")
  else if "Math.".data.isPrefixOf path.data then some .undef
  else none

def globalLookup (amb : Ambient) (path : String) : Option JSVal :=
  match builtinGlobal path with
  | some v => some v
  | none => amb.lookup path

abbrev Resolver := String → Option JSVal

mutual

/-- Evaluation of a parsed expression; `none` models a thrown exception. -/
def evalE (amb : Ambient) (res : Resolver) : JExpr → Option JSVal
  | .lit q => some (.num q)
  | .nullLit => some .nullv
  | .name p => res p
  | .call p args =>
    match res p with
    | some (.fnv f) =>
      match evalArgsE amb res args with
      | some vs => applyFn amb f vs
      | none => none
    | some _ => none
    | none => none
  | .unop neg e =>
    match evalE amb res e with
    | some v => some (if neg then jsNeg v else toNumericV v)
    | none => none
  | .bin op a b =>
    match evalE amb res a with
    | some va =>
      match evalE amb res b with
      | some vb => some (jsBinV op va vb)
      | none => none
    | none => none

def evalArgsE (amb : Ambient) (res : Resolver) :
    List JExpr → Option (List JSVal)
  | [] => some []
  | e :: es =>
    match evalE amb res e with
    | some v =>
      match evalArgsE amb res es with
      | some vs => some (v :: vs)
      | none => none
    | none => none

end

/-- The SAFE_FUNCS parameter names, in constants.js insertion order. -/
def safeFuncNames : List String :=
  ["sqrt", "abs", "round", "floor", "ceil", "min", "max", "pow", "log",
   "log10", "exp", "sin", "cos", "tan", "PI", "E"]

def safeFuncVal (s : String) : Option JSVal :=
  if s = "PI" then some (.num mathPI)
  else if s = "E" then some (.num mathE)
  else if s ∈ ["sqrt", "abs", "round", "floor", "ceil", "min", "max", "pow",
               "log", "log10", "exp", "sin", "cos", "tan"] then
    some (.fnv s)
  else none

/-- Model of `buildEvaluator(scope)(expr)` of part_002: a strict-mode
function with the SAFE_FUNCS and scope entries as parameters (duplicate
parameter names are a strict-mode SyntaxError, caught as `null`); free
identifiers fall through to the globals. -/
def localResolver (amb : Ambient) (scope : JsObj) : Resolver :=
  fun s =>
    match JsObj.get? scope s with
    | some q => some (.num q)
    | none =>
      match safeFuncVal s with
      | some v => some v
      | none => globalLookup amb s

def buildEvaluator (amb : Ambient) (scope : JsObj) (expr : String) :
    Option JSVal :=
  let names := safeFuncNames ++ JsObj.keys scope
  if names.Nodup then
    match parseJs expr with
    | some e => evalE amb (localResolver amb scope) e
    | none => none
  else none

/-- Model of `new Function('return (' + expr + ')')()` (no parameters, only
globals in scope). -/
def jsEvalBare (amb : Ambient) (expr : String) : Option JSVal :=
  match parseJs expr with
  | some e => evalE amb (globalLookup amb) e
  | none => none

/-! ## part_002: evaluateDocument -/

/-- A per-line result object.  Absent JavaScript fields are `none`; a
`value` of `none` models JavaScript `null`. -/
structure LineResult where
  value : Option Q := none
  type : Option String := none
  format : Option String := none
  formatted : Option String := none
  explanation : Option String := none
  formula : Option String := none
  source : Option String := none
deriving DecidableEq, Repr

/-- Results keyed by line index. -/
abbrev ResMap := List (ℕ × LineResult)

def ResMap.get? (o : ResMap) (k : ℕ) : Option LineResult :=
  (List.find? (fun p => p.1 = k) o).map (·.2)

def ResMap.set (o : ResMap) (k : ℕ) (v : LineResult) : ResMap :=
  if (List.any o (fun p => p.1 = k)) then
    List.map (fun p => if p.1 = k then (k, v) else p) o
  else
    List.append o [(k, v)]

abbrev NatQMap := List (ℕ × Q)

def NatQMap.get? (o : NatQMap) (k : ℕ) : Option Q :=
  (List.find? (fun p => p.1 = k) o).map (·.2)

def NatQMap.set (o : NatQMap) (k : ℕ) (v : Q) : NatQMap :=
  if (List.any o (fun p => p.1 = k)) then
    List.map (fun p => if p.1 = k then (k, v) else p) o
  else
    List.append o [(k, v)]

abbrev StrNatMap := List (String × ℕ)

def StrNatMap.set (o : StrNatMap) (k : String) (v : ℕ) : StrNatMap :=
  if (List.any o (fun p => p.1 = k)) then
    List.map (fun p => if p.1 = k then (k, v) else p) o
  else
    List.append o [(k, v)]

/-- The running state of `evaluateDocument`'s single top-down pass: its
local variables `mathScope`, `fullScope`, `variableLines`, `lineValues`,
`lineTags` and `results`. -/
structure DocState where
  mathScope : JsObj
  fullScope : JsObj
  variableLines : StrNatMap
  lineValues : List (Option Q)
  lineTags : List (Option String)
  results : ResMap
deriving DecidableEq, Repr

/-- Sum (and contributor count) of prior line values carrying a tag:
the `for (let j = 0; j < i; j++)` loop of the `sum:` branch. -/
def tagSum (tags : List (Option String)) (vals : List (Option Q))
    (tag : String) : Q × ℕ :=
  (tags.zip vals).foldl
    (fun acc p =>
      match p with
      | (some t, some v) => if t = tag then (acc.1 + v, acc.2 + 1) else acc
      | _ => acc)
    (0, 0)

/-- The effect of processing one line: an optional recorded result, the
pushed tag, and the updated scope maps. -/
structure LineAct where
  result? : Option LineResult
  tag : Option String
  mathScope : JsObj
  fullScope : JsObj
  variableLines : StrNatMap
deriving Repr

def skipAct (st : DocState) (t : Option String) : LineAct :=
  ⟨none, t, st.mathScope, st.fullScope, st.variableLines⟩

/-- Branch 2 of `evaluateDocument`: a `sum: tag` line. -/
def sumAct (st : DocState) (tag : String) : LineAct :=
  let s := tagSum st.lineTags st.lineValues tag
  { result? := some
      { value := some s.1
        type := some "total"
        format := some "number"
        explanation := some (if s.2 ≠ 0 then "Sum of #" ++ tag
                             else "No #" ++ tag ++ " found")
        formula := some ("sum(" ++ tag ++ ")")
        source := some "local" }
    tag := some tag
    mathScope := st.mathScope
    fullScope := ((st.fullScope.set ("sum:" ++ tag) s.1).set
        ("sum: " ++ tag) s.1).set ("sum(" ++ tag ++ ")") s.1
    variableLines := st.variableLines }

/-- Branch 3 of `evaluateDocument`: variable assignment `Name = expression`
(`none` when the line is not a successful assignment and evaluation falls
through). -/
def assignTry (amb : Ambient) (st : DocState) (i : ℕ) (raw trimmed : String) :
    Option LineAct :=
  match trimmed.data.findIdx? (· = '=') with
  | none => none
  | some eqIdx =>
    if eqIdx = 0 then none
    else
      let left : String := ⟨trimmed.data.take eqIdx⟩
      let right : String := ⟨trimmed.data.drop (eqIdx + 1)⟩
      match normalizeVarName left with
      | none => none
      | some varId =>
        if jsTrim right = "" then none
        else
          let exprRaw := removeTags (stripInlineComment right)
          let exprSubstituted := substituteVariables exprRaw st.fullScope
          let expr := preprocessExpression exprSubstituted
          match (buildEvaluator amb st.mathScope expr).bind JSVal.isFiniteNum with
          | none => none
          | some v =>
            let friendly := jsTrim left
            some
              { result? := some
                  { value := some v
                    type := some "variable"
                    format := some (classifyFormat raw)
                    explanation := some ("Set " ++ friendly)
                    formula := some (jsTrim exprRaw)
                    source := some "local" }
                tag := extractTag raw
                mathScope := st.mathScope.set varId v
                fullScope := (st.fullScope.set friendly v).set varId v
                variableLines := st.variableLines.set friendly i }

/-- Branch 4 of `evaluateDocument`: labeled value `Label: expression`. -/
def labeledTry (amb : Ambient) (st : DocState) (i : ℕ) (raw trimmed : String) :
    Option LineAct :=
  match trimmed.data.findIdx? (· = ':') with
  | none => none
  | some colonIdx =>
    if colonIdx = 0 then none
    else
      let left : String := ⟨trimmed.data.take colonIdx⟩
      let right : String := ⟨trimmed.data.drop (colonIdx + 1)⟩
      let exprRaw := removeTags (stripInlineComment right)
      let expr := preprocessExpression exprRaw
      if looksLikeMath expr then
        let exprSubstituted := substituteVariables exprRaw st.fullScope
        let exprFinal := preprocessExpression exprSubstituted
        match (buildEvaluator amb st.mathScope exprFinal).bind JSVal.isFiniteNum with
        | none => none
        | some v =>
          let friendly := jsTrim left
          let varId := normalizeVarName friendly
          some
            { result? := some
                { value := some v
                  type := some "calc"
                  format := some (classifyFormat raw)
                  explanation := some friendly
                  formula := some (jsTrim exprRaw)
                  source := some "local" }
              tag := extractTag raw
              mathScope :=
                match varId with
                | some id => st.mathScope.set id v
                | none => st.mathScope
              fullScope :=
                match varId with
                | some id => (st.fullScope.set friendly v).set id v
                | none => st.fullScope.set friendly v
              variableLines := st.variableLines.set friendly i }
      else none

/-- Branch 5 of `evaluateDocument`: standalone expression. -/
def bareTry (amb : Ambient) (st : DocState) (raw : String) : Option LineAct :=
  let exprRaw := removeTags (stripInlineComment raw)
  let expr := preprocessExpression exprRaw
  let tag := extractTag raw
  if looksLikeMath expr then
    let exprSubstituted := substituteVariables exprRaw st.fullScope
    let exprFinal := preprocessExpression exprSubstituted
    match (buildEvaluator amb st.mathScope exprFinal).bind JSVal.isFiniteNum with
    | none => none
    | some v =>
      some
        { result? := some
            { value := some v
              type := some (if hasWordTotal raw then "total" else "calc")
              format := some (classifyFormat raw)
              explanation := some
                (match tag with | some t => "Tagged #" ++ t | none => "")
              formula := some (jsTrim exprRaw)
              source := some "local" }
          tag := tag
          mathScope := st.mathScope
          fullScope := st.fullScope
          variableLines := st.variableLines }
  else none

/-- Classification and processing of one line, following the branch order of
`evaluateDocument` (skip, `sum:`, assignment, labeled value, standalone
expression, fallback). -/
def lineAction (amb : Ambient) (st : DocState) (i : ℕ) (raw : String) :
    LineAct :=
  let trimmed := jsTrim raw
  if trimmed = "" || "//".data.isPrefixOf trimmed.data then
    skipAct st (extractTag raw)
  else
    match sumLineMatch (stripInlineComment trimmed) with
    | some tag => sumAct st tag
    | none =>
      match assignTry amb st i raw trimmed with
      | some a => a
      | none =>
        match labeledTry amb st i raw trimmed with
        | some a => a
        | none =>
          match bareTry amb st raw with
          | some a => a
          | none => skipAct st (extractTag raw)

/-- Processing one line mutates the state: every branch pushes one entry to
`lineValues` (the recorded value or null) and one to `lineTags`, and at most
records one result under the current index. -/
def evalDocStep (amb : Ambient) (st : DocState) (i : ℕ) (raw : String) :
    DocState :=
  let a := lineAction amb st i raw
  { mathScope := a.mathScope
    fullScope := a.fullScope
    variableLines := a.variableLines
    lineValues := st.lineValues ++ [a.result?.bind (·.value)]
    lineTags := st.lineTags ++ [a.tag]
    results :=
      match a.result? with
      | some r => ResMap.set st.results i r
      | none => st.results }

def evalDocAux (amb : Ambient) : DocState → ℕ → List String → DocState
  | st, _, [] => st
  | st, i, raw :: rest => evalDocAux amb (evalDocStep amb st i raw) (i + 1) rest

def initDocState : DocState := ⟨[], [], [], [], [], []⟩

/-- Source `evaluateDocument` acting on the already-split line list. -/
def evaluateDocumentLines (amb : Ambient) (lines : List String) : DocState :=
  evalDocAux amb initDocState 0 lines

/-- Source `evaluateDocument(fullText)`; the returned `DocState` carries the
source's `{ results, variables: fullScope, variableLines }` plus the internal
per-line value/tag lists. -/
def splitNewlines (s : String) : List String :=
  (splitChar '\n' s.data).map (fun l => (⟨l⟩ : String))

def evaluateDocument (amb : Ambient) (fullText : String) : DocState :=
  evaluateDocumentLines amb (splitNewlines fullText)

/-! ## NeoCalcUI: AI formula validation -/

/-- Normalization used by `isSelfReference`:
`s.replace(/[^a-z0-9]/gi, '').toLowerCase()`. -/
def normAlnum (s : String) : List Char :=
  (s.data.filter isAlnumC).map Char.toLower

/-- Source `isSelfReference(varName, formula)` of NeoCalcUI. -/
def isSelfReference (varName formula : String) : Bool :=
  if varName = "" || formula = "" then false
  else containsSub (normAlnum formula) (normAlnum varName)

/-- A `{ valid, reason? }` validation result. -/
structure VRes where
  valid : Bool
  reason : Option String := none
deriving DecidableEq, Repr

/-- Matcher for `L\{?(\d+)\}?` (optionally case-insensitive); returns the
captured line number and consumed-1. -/
def lNumM (ci : Bool) (l : List Char) : Option (ℕ × ℕ) :=
  match l with
  | c :: r0 =>
    if c = 'L' || (ci && c = 'l') then
      let (opened, r1) : ℕ × List Char :=
        match r0 with
        | '{' :: t => (1, t)
        | _ => (0, r0)
      let ds := r1.takeWhile isDigitC
      if ds.isEmpty then none
      else
        let closed : ℕ :=
          match r1.drop ds.length with
          | '}' :: _ => 1
          | _ => 0
        some (digitsToNat ds, opened + ds.length + closed)
    else none
  | [] => none

def replaceLNum (ci : Bool) (rep : ℕ → List Char) (l : List Char) : List Char :=
  replaceScan (fun s => (lNumM ci s).map (fun p => (rep p.1, p.2))) l

/-- Replace every `L{prev}` (case-insensitive) by `rep`. -/
def replaceLPrev (rep : List Char) (l : List Char) : List Char :=
  replaceScan
    (fun s => if ciStarts "l{prev}".data s then some (rep, 6) else none) l

def mathFuncsValidate : List (List Char) :=
  ["sqrt", "abs", "round", "floor", "ceil", "min", "max", "pow", "log",
   "log10", "exp", "sin", "cos", "tan"].map String.data

def firstCiAlt (words : List (List Char)) (l : List Char) : Option ℕ :=
  match words with
  | [] => none
  | w :: ws => if ciStarts w l then some w.length else firstCiAlt ws l

/-- Strip `\b(sqrt|abs|...|tan)` (case-insensitive, boundary only before the
word, matching the validator's regex). -/
def stripMathFuncs (l : List Char) : List Char :=
  replaceScanB
    (fun prev s =>
      if isWordO prev then none
      else (firstCiAlt mathFuncsValidate s).map (fun n => ([], n - 1)))
    none l

def isDigitDotC (c : Char) : Bool := c.isDigit || c = '.'

def isValidatorOpC (c : Char) : Bool :=
  c = '+' || c = '-' || c = '*' || c = '/' || c = '^' || c = '(' || c = ')' ||
  c = '=' || c = ','

/-- Case-insensitive full-string equality. -/
def ciEqStr (a b : String) : Bool := toLowerList a.data = toLowerList b.data

/-- Build the dummy scope:
`Object.keys(availableVars).forEach(k => dummyScope[k] = 1)`. -/
def dummyScopeOf (availableVars : JsObj) : JsObj :=
  (JsObj.keys availableVars).foldl (fun o k => JsObj.set o k 1) []

/-- Source `validateAiFormula(formula, varName, availableVars)` of NeoCalcUI.
The final dry run invokes the built code, so it needs the ambient. -/
def validateAiFormula (amb : Ambient) (formula : String)
    (varName : Option String) (availableVars : JsObj) : VRes :=
  if formula = "" then ⟨false, some "Empty formula"⟩
  else if (match varName with
           | some v => v ≠ "" && isSelfReference v formula
           | none => false) then
    ⟨false, some "Self-reference detected"⟩
  else
    let dummyScope := dummyScopeOf availableVars
    let c0 := (substituteVariables formula dummyScope).data
    let c1 := replaceLNum true (fun _ => ['1']) c0
    let c2 := replaceLPrev ['1'] c1
    let c3 := stripMathFuncs c2
    let c4 := replaceScan
      (fun s =>
        match s with
        | c :: rest =>
          if isDigitDotC c then some ([], (rest.takeWhile isDigitDotC).length)
          else none
        | [] => none) c3
    let c5 := replaceScan
      (fun s =>
        match s with
        | c :: _ => if isValidatorOpC c then some ([], 0) else none
        | [] => none) c4
    let checkExpr : String := ⟨jsTrimL c5⟩
    if checkExpr ≠ "" && !ciEqStr checkExpr "sum" then
      ⟨false, some ("Unknown token/variable: \"" ++ checkExpr ++ "\"")⟩
    else
      let e0 := (substituteVariables formula dummyScope).data
      let e1 := replaceLNum true (fun _ => ['1']) e0
      let e2 := replaceLPrev ['1'] e1
      match jsEvalBare amb ⟨e2⟩ with
      | none => ⟨false, some "Parse error"⟩
      | some _ => ⟨true, none⟩

/-! ## NeoCalcUI: AI response schema validation -/

/-- A parsed JSON value (the shape of an LLM response). -/
inductive JValue where
  | jnull
  | jbool (b : Bool)
  | jnum (q : Q)
  | jstr (s : String)
  | jarr (elems : List JValue)
  | jobj (fields : List (String × JValue))

/-- JavaScript truthiness of a parsed JSON value. -/
def JValue.truthy : JValue → Bool
  | .jnull => false
  | .jbool b => b
  | .jnum q => q ≠ 0
  | .jstr s => s ≠ ""
  | .jarr _ => true
  | .jobj _ => true

/-- Is `typeof v === 'object'` for a parsed JSON value? -/
def JValue.isObjType : JValue → Bool
  | .jnull => true
  | .jarr _ => true
  | .jobj _ => true
  | _ => false

/-- Property access `v.k`; `none` models `undefined`. -/
def JValue.getField : JValue → String → Option JValue
  | .jobj fs, k => (fs.find? (fun p => p.1 = k)).map (·.2)
  | _, _ => none

/-- Template-literal display of a possibly-absent field. -/
def jvShow : Option JValue → String
  | none => "undefined"
  | some .jnull => "null"
  | some (.jbool b) => if b then "true" else "false"
  | some (.jnum q) => numToStr q
  | some (.jstr s) => s
  | some (.jarr _) => ""
  | some (.jobj _) => "[object Object]"

/-- Strict equality `v === s` of a field against a request string. -/
def strictEqStr (v : Option JValue) (s : String) : Bool :=
  match v with
  | some (.jstr t) => t = s
  | _ => false

/-- Source `validateAiResponseSchema(response, requestDocId,
requestLinesHash)` of NeoCalcUI. -/
def validateAiResponseSchema (response : JValue)
    (requestDocId requestLinesHash : String) : VRes :=
  if !response.truthy || !response.isObjType then
    ⟨false, some "Response is not a valid JSON object"⟩
  else
    let meta := response.getField "meta"
    if !(match meta with | some m => m.truthy | none => false) then
      ⟨false, some "Missing \"meta\" field in response"⟩
    else
      let docId := (meta.getD .jnull).getField "doc_id"
      if !strictEqStr docId requestDocId then
        ⟨false, some ("ID Mismatch: Request " ++ requestDocId ++
          " != Response " ++ jvShow docId)⟩
      else
        let linesHash := (meta.getD .jnull).getField "lines_hash"
        if !strictEqStr linesHash requestLinesHash then
          ⟨false, some ("Hash Mismatch: Content changed. Req: " ++
            requestLinesHash ++ ", Res: " ++ jvShow linesHash)⟩
        else
          match response.getField "results" with
          | some r =>
            if r.truthy && (match r with
                            | .jarr _ => true
                            | .jobj _ => true
                            | _ => false) then ⟨true, none⟩
            else ⟨false, some "Missing or invalid \"results\" object"⟩
          | none => ⟨false, some "Missing or invalid \"results\" object"⟩

/-! ## NeoCalcUI: display formatting (utils/formatters.js) -/

/-- Round to `d` fractional digits, half away from midpoints upward (display
only; never load-bearing in the claims). -/
def roundToFrac (q : Q) (d : ℕ) : Q :=
  Q.ofInt (qFloorI (q * (10 : Q) ^ d + mkQ 1 2)) / (10 : Q) ^ d

def groupDigits3 (l : List Char) : List Char :=
  let g := fun (acc : List Char × ℕ) (c : Char) =>
    if acc.2 ≠ 0 && acc.2 % 3 = 0 then (c :: ',' :: acc.1, acc.2 + 1)
    else (c :: acc.1, acc.2 + 1)
  (l.reverse.foldl g ([], 0)).1

/-- Digits of the fractional part of a nonnegative rational with exactly `d`
digits. -/
def fracFixed (q : Q) (d : ℕ) : List Char :=
  let scaled : ℕ := (q * (10 : Q) ^ d).num.toNat % (10 ^ d)
  let s := toString scaled
  (List.replicate (d - s.length) '0') ++ s.data

/-- Model of `formatValue(val, format)` from utils/formatters.js for finite
values (grouping and fixed-decimal display). -/
def formatValue (q : Q) (format : Option String) : String :=
  if format = some "currency" then
    let r := roundToFrac q 2
    let a := qAbs r
    (if r < 0 then "-" else "") ++ "$" ++
      ⟨groupDigits3 (toString (qFloorI a).toNat).data⟩ ++ "." ++ ⟨fracFixed a 2⟩
  else if format = some "percent" then
    let r := roundToFrac (q * 100) 1
    (if r < 0 then "-" else "") ++ toString (qFloorI (qAbs r)).toNat ++ "." ++
      ⟨fracFixed (qAbs r) 1⟩ ++ "%"
  else
    let r := roundToFrac q 2
    let a := qAbs r
    let frac := a - Q.ofInt (qFloorI a)
    let intStr : String := ⟨groupDigits3 (toString (qFloorI a).toNat).data⟩
    let fracStr : String :=
      if frac = 0 then ""
      else if (10 * frac).den = 1 then "." ++ ⟨fracFixed a 1⟩
      else "." ++ ⟨fracFixed a 2⟩
    (if r < 0 then "-" else "") ++ intStr ++ fracStr

/-! ## NeoCalcUI: the reconciliation engine

The `useEffect` of NeoCalcUI (debounced processing): local evaluation, a
merge pass over all lines (Case A local priority / Case B AI logic), the
tagged-sum recomputation loop and the iterative AI re-evaluation loop, both
capped at `maxIterations = 5`. -/

/-- One entry of the stored `aiLogic` map.  Fields that are absent, or not
strings, are `none` (a non-string field compares unequal to every string
literal and makes the string operations of the engine throw, which ends the
per-line `try` block just like a missing field does). -/
structure AiItem where
  kind : Option String := none
  rhs : Option String := none
  formula : Option String := none
  format : Option String := none
  type : Option String := none
  explanation : Option String := none
deriving DecidableEq, Repr

abbrev AiMap := List (ℕ × AiItem)

def AiMap.get? (o : AiMap) (k : ℕ) : Option AiItem :=
  (List.find? (fun p => p.1 = k) o).map (·.2)

/-- JavaScript truthiness filter for an optional string field. -/
def optTruthy : Option String → Option String
  | some "" => none
  | some s => some s
  | none => none

/-- The mutable state of the reconciliation pass. -/
structure RecState where
  finalResults : ResMap
  currentValues : NatQMap
  variableValues : JsObj
deriving DecidableEq, Repr

/-- Variable-name extraction from the raw line
(`currentLine.split('=')[0].trim()` or the `:` variant). -/
def varNameOfLine (line : String) : Option String :=
  if line.data.any (· = '=') then
    some (jsTrim ⟨line.data.takeWhile (· ≠ '=')⟩)
  else if line.data.any (· = ':') then
    some (jsTrim ⟨line.data.takeWhile (· ≠ ':')⟩)
  else none

/-- Legacy protection: if the formula contains `=`, keep only the part after
the first `=`, trimmed. -/
def sliceAfterEq (s : String) : String :=
  if s.data.any (· = '=') then
    jsTrim ⟨(s.data.dropWhile (· ≠ '=')).drop 1⟩
  else s

/-- Is an optional string truthy (nonempty)? -/
def strTruthy : Option String → Bool
  | some s => s ≠ ""
  | none => false

/-- Substitution of every known variable value into an AI formula:
case-insensitive, *without* word boundaries
(`new RegExp(escaped, 'gi')`), names longest first. -/
def replaceAllCI (name rep l : List Char) : List Char :=
  replaceScan
    (fun s =>
      if name ≠ [] && ciStarts name s then some (rep, name.length - 1)
      else none) l

def substAiVars (vv : JsObj) (l : List Char) : List Char :=
  (sortByLenDesc (JsObj.keys vv)).foldl
    (fun acc n =>
      match JsObj.get? vv n with
      | some v => replaceAllCI n.data (numToStr v).data acc
      | none => acc) l

/-- The `L{prev}` replacement value of the merge pass: walk backwards from
`idx - 1`; a present result entry wins (its value may be null), then
`currentValues`, default `0`. -/
def prevLookup (fin : ResMap) (cur : NatQMap) : ℕ → String
  | 0 => "0"
  | j + 1 =>
    match ResMap.get? fin j with
    | some r => (match r.value with | some v => numToStr v | none => "null")
    | none =>
      match NatQMap.get? cur j with
      | some v => numToStr v
      | none => prevLookup fin cur j

/-- The `L{n}` replacement value of the merge pass:
`finalResults[n]?.value ?? currentValues[n] ?? 0`. -/
def lineNumLookup (fin : ResMap) (cur : NatQMap) (n : ℕ) : String :=
  match (ResMap.get? fin n).bind (·.value) with
  | some v => numToStr v
  | none =>
    match NatQMap.get? cur n with
    | some v => numToStr v
    | none => "0"

/-- First hashtag captured from an explanation string
(`explanation?.match(/#([A-Za-z0-9][\w-]*)/)?.[1]`). -/
def firstHashtag (s : Option String) : Option (List Char) :=
  match s with
  | none => none
  | some e => (findScan (fun _ l => hashTagM l) none e.data).map (·.1)

/-- The `sum(tag)` substitution of the merge pass: local-result explanations
with a matching hashtag contribute their local value; otherwise lines whose
raw text carries the tag contribute their current merged value. -/
def sumTagMerge (lines : List String) (localResults : ResMap)
    (fin : ResMap) (cur : NatQMap) (idx : ℕ) (targetTag : String) : Q :=
  (List.range idx).foldl
    (fun acc i =>
      let localTag := firstHashtag ((ResMap.get? localResults i).bind (·.explanation))
      if (localTag.map (fun t => (⟨toLowerList t⟩ : String))) = some targetTag then
        acc + (((ResMap.get? localResults i).bind (·.value)).getD 0)
      else
        if extractTag (lines.getD i "") = some targetTag then
          match (ResMap.get? fin i).bind (·.value) with
          | some v => acc + v
          | none =>
            match NatQMap.get? cur i with
            | some v => acc + v
            | none => acc
        else acc)
    0

/-- Replace `sum(tag)` calls (`/sum\(([^)]+)\)/gi`). -/
def replaceSumCalls (lines : List String) (localResults : ResMap)
    (fin : ResMap) (cur : NatQMap) (idx : ℕ) (l : List Char) : List Char :=
  replaceScan
    (fun s =>
      if ciStarts "sum(".data s then
        let inner := (s.drop 4).takeWhile (· ≠ ')')
        if inner.isEmpty then none
        else
          match (s.drop 4).drop inner.length with
          | ')' :: _ =>
            let targetTag : String := ⟨toLowerList (jsTrimL inner)⟩
            some ((numToStr (sumTagMerge lines localResults fin cur idx
              targetTag)).data, 4 + inner.length)
          | _ => none
      else none) l

/-- Rewrite `sqrt(x)` to `Math.sqrt(x)` (`/sqrt\(([^)]+)\)/gi`). -/
def rewriteSqrt (l : List Char) : List Char :=
  replaceScan
    (fun s =>
      if ciStarts "sqrt(".data s then
        let inner := (s.drop 5).takeWhile (· ≠ ')')
        if inner.isEmpty then none
        else
          match (s.drop 5).drop inner.length with
          | ')' :: _ =>
            some ("Math.sqrt(".data ++ inner ++ [')'], 5 + inner.length)
          | _ => none
      else none) l

/-- Rewrite two-argument `round(x, d)`
(`/round\(([^,]+),\s*(\d+)\)/gi`). -/
def rewriteRound (l : List Char) : List Char :=
  replaceScan
    (fun s =>
      if ciStarts "round(".data s then
        let inner := (s.drop 6).takeWhile (· ≠ ',')
        if inner.isEmpty then none
        else
          match (s.drop 6).drop inner.length with
          | ',' :: r1 =>
            let sp := r1.takeWhile jsIsSpace
            let ds := (r1.drop sp.length).takeWhile isDigitC
            if ds.isEmpty then none
            else
              match (r1.drop (sp.length + ds.length)) with
              | ')' :: _ =>
                some ("(Math.round(".data ++ inner ++ " * Math.pow(10, ".data
                  ++ ds ++ ")) / Math.pow(10, ".data ++ ds ++ "))".data,
                  6 + inner.length + sp.length + ds.length + 1)
              | _ => none
          | _ => none
      else none) l

/-- Rewrite `max(args)` / `min(args)` to `Math.max` / `Math.min`. -/
def rewriteMaxMin (word : String) (l : List Char) : List Char :=
  replaceScan
    (fun s =>
      if ciStarts (word ++ "(").data s then
        let inner := (s.drop (word.length + 1)).takeWhile (· ≠ ')')
        if inner.isEmpty then none
        else
          match (s.drop (word.length + 1)).drop inner.length with
          | ')' :: _ =>
            some (("Math." ++ word ++ "(").data ++ inner ++ [')'],
              word.length + 1 + inner.length)
          | _ => none
      else none) l

/-- The substitution/evaluation tail of Case B of the merge pass (runs only
after validation succeeded). -/
def phase1AiEval (amb : Ambient) (lines : List String) (localResults : ResMap)
    (aiItem : AiItem) (st : RecState) (idx : ℕ) (parsable0 : String)
    (varName : Option String) : RecState :=
  let p1 := substAiVars st.variableValues parsable0.data
  let p2 := replaceLPrev (prevLookup st.finalResults st.currentValues idx).data p1
  let p3 := replaceLNum false
    (fun n => (lineNumLookup st.finalResults st.currentValues n).data) p2
  let p4 := replaceSumCalls lines localResults st.finalResults
    st.currentValues idx p3
  let p5 := rewriteMaxMin "min" (rewriteMaxMin "max" (rewriteRound (rewriteSqrt p4)))
  if p5.isEmpty || p5 = ['0'] then st
  else
    match (jsEvalBare amb ⟨p5⟩).bind JSVal.isFiniteNum with
    | none => st
    | some q =>
      { finalResults := st.finalResults.set idx
          { value := some q
            formatted := some (formatValue q aiItem.format)
            type := if aiItem.kind = some "rewrite" then some "calc"
                    else aiItem.kind
            explanation := aiItem.explanation
            formula :=
              match optTruthy aiItem.rhs with
              | some r => some r
              | none => aiItem.formula
            source := some "ai" }
        currentValues := st.currentValues.set idx q
        variableValues :=
          match varName with
          | some vn =>
            if vn ≠ "" then st.variableValues.set vn q
            else st.variableValues
          | none => st.variableValues }

/-- Case B of the merge pass (`lines.forEach`): attach AI logic for a line
without a local result. -/
def phase1AiCase (amb : Ambient) (lines : List String) (localResults : ResMap)
    (aiItem : AiItem) (st : RecState) (idx : ℕ) : RecState :=
  if aiItem.kind = some "header" || aiItem.kind = some "note" ||
      aiItem.kind = some "variable" then
    if strTruthy aiItem.explanation then
      let entry : LineResult :=
        { value := none
          formatted := some ""
          type := some (if aiItem.kind = some "variable" then "note"
                        else (aiItem.kind.getD ""))
          explanation := aiItem.explanation
          formula := some ""
          source := some "ai" }
      { st with finalResults := ResMap.set st.finalResults idx entry }
    else st
  else
    let isRewrite := aiItem.kind = some "rewrite" ||
      (!strTruthy aiItem.kind && (strTruthy aiItem.formula || strTruthy aiItem.format))
    match optTruthy aiItem.rhs <|> optTruthy aiItem.formula <|> optTruthy aiItem.format with
    | none => st
    | some rawFormula =>
      if isRewrite then
        let parsable0 := sliceAfterEq rawFormula
        let varName := varNameOfLine (lines.getD idx "")
        if !(validateAiFormula amb parsable0 varName st.variableValues).valid then st
        else phase1AiEval amb lines localResults aiItem st idx parsable0 varName
      else st

/-- One line of the merge pass: Case A (a local result always wins and is
stamped `source: local`) or Case B (AI logic). -/
def phase1Line (amb : Ambient) (lines : List String) (localResults : ResMap)
    (aiLogic : AiMap) (st : RecState) (idx : ℕ) : RecState :=
  match ResMap.get? localResults idx with
  | some lr =>
    let entry : LineResult := { lr with source := some "local" }
    { st with finalResults := ResMap.set st.finalResults idx entry }
  | none =>
    match AiMap.get? aiLogic idx with
    | none => st
    | some aiItem => phase1AiCase amb lines localResults aiItem st idx

/-- One line of the tagged-sum recomputation loop. -/
def sumPassLine (lines : List String) (acc : RecState × Bool) (idx : ℕ) :
    RecState × Bool :=
  let st := acc.1
  let line := lines.getD idx ""
  match sumLineMatch (jsTrim line) with
  | none => acc
  | some rawTag =>
    let targetTag := jsTrim rawTag
    let s := (List.range idx).foldl
      (fun (a : Q × ℕ) i =>
        if extractTag (lines.getD i "") = some targetTag then
          match (ResMap.get? st.finalResults i).bind (·.value) with
          | some v => (a.1 + v, a.2 + 1)
          | none => a
        else a)
      (0, 0)
    let sum := s.1
    let (fin1, ch1) :=
      if ((ResMap.get? st.finalResults idx).bind (·.value)) ≠ some sum then
        (st.finalResults.set idx
          { value := some sum
            type := some "total"
            format := some "number"
            explanation := some (if s.2 ≠ 0 then "Sum of #" ++ targetTag
                                 else "No #" ++ targetTag ++ " found")
            formula := some ("sum(" ++ targetTag ++ ")")
            source := some "local" }, true)
      else (st.finalResults, acc.2)
    let (vv1, ch2) :=
      if idx > 0 then
        let prevLine := jsTrim (lines.getD (idx - 1) "")
        if prevLine ≠ "" && !prevLine.data.any (· = '=') &&
            !prevLine.data.any (· = ':') && !"#".data.isPrefixOf prevLine.data &&
            !"//".data.isPrefixOf prevLine.data then
          if st.variableValues.get? prevLine ≠ some sum then
            (st.variableValues.set prevLine sum, true)
          else (st.variableValues, ch1)
        else (st.variableValues, ch1)
      else (st.variableValues, ch1)
    let (vv2, ch3) :=
      if JsObj.get? vv1 ("sum:" ++ targetTag) ≠ some sum then
        ((vv1.set ("sum:" ++ targetTag) sum).set ("sum: " ++ targetTag) sum,
          true)
      else (vv1, ch2)
    ({ finalResults := fin1, currentValues := st.currentValues,
       variableValues := vv2 }, ch3)

/-- A full pass of the tagged-sum recomputation loop. -/
def sumPass (lines : List String) (st : RecState) : RecState × Bool :=
  (List.range lines.length).foldl (sumPassLine lines) (st, false)

/-- The substitution/evaluation tail of one line of the iterative AI
re-evaluation loop (runs only after validation succeeded). -/
def aiPassEval (amb : Ambient) (aiItem : AiItem) (acc : RecState × Bool)
    (idx : ℕ) (parsable0 : String) (varName : Option String) :
    RecState × Bool :=
  let st := acc.1
  let p1 := substAiVars st.variableValues parsable0.data
  let p2 := p1.filter (· ≠ '$')
  let p3 := replaceScan
    (fun s =>
      match s with
      | ',' :: a :: b :: c :: _ =>
        if isDigitC a && isDigitC b && isDigitC c then
          some ([a, b, c], 3)
        else none
      | _ => none) p2
  match (jsEvalBare amb ⟨p3⟩).bind JSVal.isFiniteNum with
  | none => acc
  | some q =>
    let st' :=
      { finalResults := st.finalResults.set idx
          { value := some q
            formatted := some (formatValue q aiItem.format)
            type := if aiItem.kind = some "rewrite" then some "calc"
                    else aiItem.type
            explanation := aiItem.explanation
            formula :=
              match optTruthy aiItem.rhs with
              | some r => some r
              | none => aiItem.formula
            source := some "ai" }
        currentValues := st.currentValues
        variableValues :=
          match varName with
          | some vn =>
            if vn ≠ "" then st.variableValues.set vn q
            else st.variableValues
          | none => st.variableValues }
    (st', if strTruthy varName then true else acc.2)

/-- One line of the iterative AI re-evaluation loop. -/
def aiPassLine (amb : Ambient) (lines : List String) (aiLogic : AiMap)
    (acc : RecState × Bool) (idx : ℕ) : RecState × Bool :=
  let st := acc.1
  match AiMap.get? aiLogic idx with
  | none => acc
  | some aiItem =>
    if aiItem.kind = some "ignore" then acc
    else if aiItem.kind = some "header" || aiItem.kind = some "note" ||
        aiItem.kind = some "skip" || aiItem.type = some "header" ||
        aiItem.type = some "note" then acc
    else
      match optTruthy aiItem.rhs <|> optTruthy aiItem.formula with
      | none => acc
      | some rawFormula =>
        if aiItem.kind = some "question" then acc
        else
          let parsable0 := sliceAfterEq rawFormula
          let varName := varNameOfLine (lines.getD idx "")
          if !(validateAiFormula amb parsable0 varName st.variableValues).valid
          then acc
          else aiPassEval amb aiItem acc idx parsable0 varName

/-- A full pass of the iterative AI re-evaluation loop. -/
def aiPass (amb : Ambient) (lines : List String) (aiLogic : AiMap)
    (st : RecState) : RecState × Bool :=
  (List.range lines.length).foldl (aiPassLine amb lines aiLogic) (st, false)

/-- Model of `while (changed && iterations < maxIterations)`: run a pass,
stop when it reports no change, cap the number of passes by the fuel. -/
def loopCap (pass : RecState → RecState × Bool) : ℕ → RecState → RecState
  | 0, st => st
  | n + 1, st =>
    let r := pass st
    if r.2 then loopCap pass n r.1 else r.1

/-- Initial `currentValues`: every local result value (all local values are
numbers, never null). -/
def initCurrentValues (localResults : ResMap) : NatQMap :=
  localResults.foldl
    (fun m p =>
      match p.2.value with
      | some v => m.set p.1 v
      | none => m) []

/-- The reconciliation state seeded from the local evaluation. -/
def initRecState (doc : DocState) : RecState :=
  { finalResults := doc.results
    currentValues := initCurrentValues doc.results
    variableValues := doc.fullScope }

/-- The merge pass (`lines.forEach` over all line indices). -/
def phase1All (amb : Ambient) (lines : List String) (localResults : ResMap)
    (aiLogic : AiMap) (st : RecState) : RecState :=
  (List.range lines.length).foldl (phase1Line amb lines localResults aiLogic) st

/-- The full reconciliation computation of the NeoCalcUI `useEffect` on an
already-split line list: local evaluation, merge pass, tagged-sum loop and
AI re-evaluation loop (both capped at 5 passes). -/
def reconcileLines (amb : Ambient) (lines : List String) (aiLogic : AiMap) :
    ResMap :=
  let doc := evaluateDocumentLines amb lines
  (loopCap (aiPass amb lines aiLogic) 5
    (loopCap (sumPass lines) 5
      (phase1All amb lines doc.results aiLogic (initRecState doc)))).finalResults

/-- The reconciliation computation on the raw text (`text.split('\n')`). -/
def reconcile (amb : Ambient) (text : String) (aiLogic : AiMap) : ResMap :=
  reconcileLines amb (splitNewlines text) aiLogic

/-! ## NeoCalcUI: AI response handling (callLocalLLM) -/

def jstrField (v : JValue) (k : String) : Option String :=
  match v.getField k with
  | some (.jstr s) => some s
  | _ => none

def allDigitsStr (s : String) : Bool := !s.isEmpty && s.data.all isDigitC

/-- Conversion of a validated `results` object into the stored `aiLogic`
map (numeric-string keys to line indices). -/
def jvalueToAiLogic (v : Option JValue) : AiMap :=
  match v with
  | some (.jobj fs) =>
    fs.filterMap
      (fun p =>
        if allDigitsStr p.1 then
          some (digitsToNat p.1.data,
            { kind := jstrField p.2 "kind"
              rhs := jstrField p.2 "rhs"
              formula := jstrField p.2 "formula"
              format := jstrField p.2 "format"
              type := jstrField p.2 "type"
              explanation := jstrField p.2 "explanation" })
        else none)
  | some (.jarr xs) =>
    xs.enum.map
      (fun p =>
        (p.1,
          { kind := jstrField p.2 "kind"
            rhs := jstrField p.2 "rhs"
            formula := jstrField p.2 "formula"
            format := jstrField p.2 "format"
            type := jstrField p.2 "type"
            explanation := jstrField p.2 "explanation" }))
  | _ => []

/-- The UI state the claims are about: the stored `aiLogic` map and the
displayed `computedResults`. -/
structure UiState where
  aiLogic : AiMap
  computedResults : ResMap
deriving DecidableEq, Repr

/-- The strict-validation branch of `callLocalLLM` after `JSON.parse`
succeeds: an invalid response returns before `setAiLogic`, so neither the
stored map nor the displayed results change; a valid one stores
`parsed.results` and the effect recomputes the displayed results. -/
def handleAiResponse (amb : Ambient) (text : String) (parsed : JValue)
    (docId linesHash : String) (st : UiState) : UiState :=
  if (validateAiResponseSchema parsed docId linesHash).valid then
    let newLogic := jvalueToAiLogic (parsed.getField "results")
    { aiLogic := newLogic, computedResults := reconcile amb text newLogic }
  else st

/-! ## Auxiliary notions used by the theorems -/

/-- Iterated application of a reconciliation pass (keeping only the state). -/
def iterPass (pass : RecState → RecState × Bool) : ℕ → RecState → RecState
  | 0, st => st
  | n + 1, st => iterPass pass n (pass st).1

mutual

/-- All identifier paths referenced by an expression. -/
def exprNames : JExpr → List String
  | .lit _ => []
  | .nullLit => []
  | .name p => [p]
  | .call p args => p :: exprNamesList args
  | .unop _ e => exprNames e
  | .bin _ a b => exprNames a ++ exprNames b

def exprNamesList : List JExpr → List String
  | [] => []
  | e :: es => exprNames e ++ exprNamesList es

end

/-- The per-line tag recorded by `evaluateDocument` for a raw line: the sum
tag for `sum:` lines, otherwise `extractTag` of the raw line (every branch
of the source pushes one of these two). -/
def lineTagSpec (raw : String) : Option String :=
  let trimmed := jsTrim raw
  if trimmed = "" || "//".data.isPrefixOf trimmed.data then extractTag raw
  else
    match sumLineMatch (stripInlineComment trimmed) with
    | some t => some t
    | none => extractTag raw

/-- The sum-directive tag of a line, `none` for non-sum lines (skip lines
are checked first, exactly as in the source). -/
def sumTagOfLine (raw : String) : Option String :=
  let trimmed := jsTrim raw
  if trimmed = "" || "//".data.isPrefixOf trimmed.data then none
  else sumLineMatch (stripInlineComment trimmed)

/-- The claim-level contribution sum for a `sum: T` line at index `i`: the
resolved values of all lines strictly before `i` that carry tag `T`,
accumulated left to right exactly as the engine does. -/
def contribSum (res : ResMap) (ls : List String) (T : String) (i : ℕ) : Q :=
  (List.range i).foldl
    (fun acc j =>
      if lineTagSpec (ls.getD j "") = some T then
        match (ResMap.get? res j).bind (·.value) with
        | some v => qAdd acc v
        | none => acc
      else acc)
    0

/-- An ambient whose only host binding is a `Math.random` returning `q`
(modelling the RNG state of one concrete run). -/
def randAmbient (q : Q) : Ambient :=
  ⟨fun _ => none, fun name _ => if name = "Math.random" then some (.num q) else none⟩

/-! ## Concrete instances used by the claims -/

def c1Lines : List String := ["x = 5"]

def c1Ai : AiMap := [(0, { kind := some "rewrite", rhs := some "7" })]

def c1LocalRes : LineResult :=
  { value := some ⟨5, 1⟩, type := some "variable", format := some "number",
    formatted := none, explanation := some "Set x", formula := some "5",
    source := some "local" }

def c1Doc : DocState :=
  { mathScope := [("x", ⟨5, 1⟩)], fullScope := [("x", ⟨5, 1⟩)],
    variableLines := [("x", 0)], lineValues := [some ⟨5, 1⟩],
    lineTags := [none], results := [(0, c1LocalRes)] }

def c1S1 : RecState :=
  { finalResults := [(0, c1LocalRes)], currentValues := [(0, ⟨5, 1⟩)],
    variableValues := [("x", ⟨5, 1⟩)] }

def c1AiRes : LineResult :=
  { value := some ⟨7, 1⟩, type := some "calc", format := none,
    formatted := some "7", explanation := none, formula := some "7",
    source := some "ai" }

def c1S2 : RecState :=
  { finalResults := [(0, c1AiRes)], currentValues := [(0, ⟨5, 1⟩)],
    variableValues := [("x", ⟨7, 1⟩)] }

def c6Lines : List String := ["A = B", "B = A"]

def c6Ai : AiMap :=
  [(0, { kind := some "rewrite", rhs := some "B" }),
   (1, { kind := some "rewrite", rhs := some "A" })]

def c6Doc : DocState :=
  { mathScope := [], fullScope := [], variableLines := [],
    lineValues := [none, none], lineTags := [none, none], results := [] }

def c6S : RecState := ⟨[], [], []⟩

def c8Lines : List String := ["Math.random()"]

def c9Lines : List String :=
  ["a: 1 #food", "b: 2 #food", "sum: food", "sum: food"]

/-- The state invariant of the single top-down pass of `evaluateDocument`
after processing the line list `pre`: the per-line lists have one entry per
line, no result exists at an unprocessed index, and for every processed line
the recorded tag is `lineTagSpec` of that line and the recorded value is the
value of its result entry (or null). -/
def DocInv (st : DocState) (pre : List String) : Prop :=
  st.lineTags.length = pre.length ∧ st.lineValues.length = pre.length ∧
  (∀ k, pre.length ≤ k → ResMap.get? st.results k = none) ∧
  (∀ j, j < pre.length →
    st.lineTags[j]? = some (lineTagSpec (pre.getD j "")) ∧
    st.lineValues[j]? = some ((ResMap.get? st.results j).bind (·.value)))

def c2wLines : List String := ["1 #a", "sum: a", "2 #a"]

def c2Lines : List String := ["alpha something #food", "sum: food", "Beta = two"]

def c2Ai : AiMap :=
  [(0, { kind := some "rewrite", rhs := some "Beta + 1" }),
   (2, { kind := some "rewrite", rhs := some "2" })]


def c2SumRes : LineResult :=
  { value := some ⟨0, 1⟩, type := some "total", format := some "number",
    formatted := none, explanation := some "No #food found",
    formula := some "sum(food)", source := some "local" }

def c2Line2Res : LineResult :=
  { value := some ⟨2, 1⟩, type := some "calc", format := none,
    formatted := some "2", explanation := none, formula := some "2",
    source := some "ai" }

def c2Line0Res : LineResult :=
  { value := some ⟨3, 1⟩, type := some "calc", format := none,
    formatted := some "3", explanation := none, formula := some "Beta + 1",
    source := some "ai" }

def c2Doc : DocState :=
  { mathScope := [],
    fullScope := [("sum:food", ⟨0, 1⟩), ("sum: food", ⟨0, 1⟩),
      ("sum(food)", ⟨0, 1⟩)],
    variableLines := [],
    lineValues := [none, some ⟨0, 1⟩, none],
    lineTags := [some "food", some "food", none],
    results := [(1, c2SumRes)] }

def c2S1 : RecState :=
  { finalResults := [(1, c2SumRes), (2, c2Line2Res)],
    currentValues := [(1, ⟨0, 1⟩), (2, ⟨2, 1⟩)],
    variableValues := [("sum:food", ⟨0, 1⟩), ("sum: food", ⟨0, 1⟩),
      ("sum(food)", ⟨0, 1⟩), ("Beta", ⟨2, 1⟩)] }

def c2S1b : RecState :=
  { finalResults := [(1, c2SumRes), (2, c2Line2Res)],
    currentValues := [(1, ⟨0, 1⟩), (2, ⟨2, 1⟩)],
    variableValues := [("sum:food", ⟨0, 1⟩), ("sum: food", ⟨0, 1⟩),
      ("sum(food)", ⟨0, 1⟩), ("Beta", ⟨2, 1⟩),
      ("alpha something #food", ⟨0, 1⟩)] }

def c2S2 : RecState :=
  { finalResults := [(1, c2SumRes), (2, c2Line2Res), (0, c2Line0Res)],
    currentValues := [(1, ⟨0, 1⟩), (2, ⟨2, 1⟩)],
    variableValues := [("sum:food", ⟨0, 1⟩), ("sum: food", ⟨0, 1⟩),
      ("sum(food)", ⟨0, 1⟩), ("Beta", ⟨2, 1⟩),
      ("alpha something #food", ⟨0, 1⟩)] }

def c3wItem : AiItem := { kind := some "rewrite", rhs := some "Staffing * 2" }

def c3wAi : AiMap := [(0, c3wItem)]

def c3wLines : List String := ["Staffing = lots"]

def c3wSt : RecState := ⟨[], [], []⟩

/-! ## Helper lemmas -/

/-- The validator rejects any formula whose normalization contains the
normalized bound variable name (both sides stripped of non-alphanumerics and
lowercased). -/
theorem validateAiFormula_self_reference (amb : Ambient) (f v : String)
    (av : JsObj) (hv : v ≠ "")
    (hc : containsSub (normAlnum f) (normAlnum v) = true) :
    (validateAiFormula amb f (some v) av).valid = false := by
  by_cases hf : f = ""
  · simp [validateAiFormula, hf]
  · have hsr : isSelfReference v f = true := by
      simp [isSelfReference, hv, hf, hc]
    simp [validateAiFormula, hf, hv, hsr]

theorem loopCap_stop {pass : RecState → RecState × Bool} {st st' : RecState}
    (h : pass st = (st', false)) (n : ℕ) :
    loopCap pass (n + 1) st = st' := by
  simp [loopCap, h]

theorem loopCap_go {pass : RecState → RecState × Bool} {st st' : RecState}
    (h : pass st = (st', true)) (n : ℕ) :
    loopCap pass (n + 1) st = loopCap pass n st' := by
  simp [loopCap, h]

/-- The capped `while (changed && iterations < maxIterations)` loop runs some
`m ≤ fuel` full passes (at least one if any fuel), and if it stopped short of
the cap, the last executed pass reported no change. -/
theorem loopCap_spec (pass : RecState → RecState × Bool) :
    ∀ (fuel : ℕ) (st : RecState), ∃ m, m ≤ fuel ∧ (1 ≤ fuel → 1 ≤ m) ∧
      loopCap pass fuel st = iterPass pass m st ∧
      (m < fuel → (pass (iterPass pass (m - 1) st)).2 = false)
  | 0, _ => ⟨0, Nat.le_refl 0, by omega, rfl, by omega⟩
  | fuel + 1, st => by
    rcases hp : pass st with ⟨st', b⟩
    cases b with
    | false =>
      refine ⟨1, by omega, by omega, ?_, ?_⟩
      · rw [loopCap_stop hp]
        simp [iterPass, hp]
      · intro _
        simp [iterPass, hp]
    | true =>
      obtain ⟨m', h1, h2, h3, h4⟩ := loopCap_spec pass fuel st'
      refine ⟨m' + 1, by omega, by omega, ?_, ?_⟩
      · rw [loopCap_go hp, h3]
        simp [iterPass, hp]
      · intro hlt
        have hm'lt : m' < fuel := by omega
        have hge : 1 ≤ m' := h2 (by omega)
        obtain ⟨k, hk⟩ : ∃ k, m' = k + 1 := ⟨m' - 1, by omega⟩
        subst hk
        have hsig := h4 hm'lt
        simpa [iterPass, hp] using hsig

mutual

/-- Evaluation throws (returns `none`) whenever the expression references a
name the resolver cannot supply: every operator is strict, so every name in
the tree is resolved unless an earlier failure already aborted evaluation. -/
theorem evalE_unbound (amb : Ambient) (res : Resolver) :
    ∀ (e : JExpr) (n : String), n ∈ exprNames e → res n = none →
      evalE amb res e = none
  | .lit _, n, hm, _ => by simp [exprNames] at hm
  | .nullLit, n, hm, _ => by simp [exprNames] at hm
  | .name p, n, hm, hn => by
    simp [exprNames] at hm
    subst hm
    simp [evalE, hn]
  | .call p args, n, hm, hn => by
    simp [exprNames] at hm
    rcases hm with h | h
    · subst h
      simp [evalE, hn]
    · cases hres : res p with
      | none => simp [evalE, hres]
      | some v =>
        cases v with
        | fnv f =>
          simp [evalE, hres, evalArgsE_unbound amb res args n h hn]
        | num q => simp [evalE, hres]
        | inf => simp [evalE, hres]
        | ninf => simp [evalE, hres]
        | nan => simp [evalE, hres]
        | nullv => simp [evalE, hres]
        | undef => simp [evalE, hres]
        | str s => simp [evalE, hres]
        | objv o => simp [evalE, hres]
  | .unop b e, n, hm, hn => by
    simp [exprNames] at hm
    simp [evalE, evalE_unbound amb res e n hm hn]
  | .bin op a b, n, hm, hn => by
    simp [exprNames] at hm
    rcases hm with h | h
    · simp [evalE, evalE_unbound amb res a n h hn]
    · cases ha : evalE amb res a with
      | none => simp [evalE, ha]
      | some va => simp [evalE, ha, evalE_unbound amb res b n h hn]

theorem evalArgsE_unbound (amb : Ambient) (res : Resolver) :
    ∀ (es : List JExpr) (n : String), n ∈ exprNamesList es → res n = none →
      evalArgsE amb res es = none
  | [], n, hm, _ => by simp [exprNamesList] at hm
  | e :: es, n, hm, hn => by
    simp [exprNamesList] at hm
    rcases hm with h | h
    · simp [evalArgsE, evalE_unbound amb res e n h hn]
    · cases he : evalE amb res e with
      | none => simp [evalArgsE, he]
      | some v => simp [evalArgsE, he, evalArgsE_unbound amb res es n h hn]

end

/-- The iterative AI re-evaluation loop leaves a line's state untouched when
every available right-hand side for it is self-referential (validation
fails before any evaluation). -/
theorem aiPassLine_selfref_unchanged (amb : Ambient) (lines : List String)
    (ai : AiMap) (st : RecState) (ch : Bool) (idx : ℕ) (item : AiItem)
    (v : String) (hget : AiMap.get? ai idx = some item)
    (hvar : varNameOfLine (lines.getD idx "") = some v) (hv : v ≠ "")
    (hc : ∀ f, (optTruthy item.rhs <|> optTruthy item.formula) = some f →
      containsSub (normAlnum (sliceAfterEq f)) (normAlnum v) = true) :
    aiPassLine amb lines ai (st, ch) idx = (st, ch) := by
  cases hraw : optTruthy item.rhs <|> optTruthy item.formula with
  | none => simp [aiPassLine, hget, hraw]
  | some f =>
    have hval := validateAiFormula_self_reference amb (sliceAfterEq f) v
      st.variableValues hv (hc f hraw)
    simp only [aiPassLine, hget, hraw, hvar, hval]
    split
    · rfl
    split
    · rfl
    split
    · rfl
    simp [hvar, hval]

/-- The merge pass (Case B, rewrite path) leaves the state untouched for a
self-referential rewrite. -/
theorem phase1AiCase_selfref_unchanged (amb : Ambient) (lines : List String)
    (localResults : ResMap) (item : AiItem) (st : RecState) (idx : ℕ)
    (v : String) (hk1 : item.kind ≠ some "header")
    (hk2 : item.kind ≠ some "note") (hk3 : item.kind ≠ some "variable")
    (hvar : varNameOfLine (lines.getD idx "") = some v) (hv : v ≠ "")
    (hc : ∀ f,
      (optTruthy item.rhs <|> optTruthy item.formula <|> optTruthy item.format) =
        some f →
      containsSub (normAlnum (sliceAfterEq f)) (normAlnum v) = true) :
    phase1AiCase amb lines localResults item st idx = st := by
  cases hraw : optTruthy item.rhs <|> optTruthy item.formula <|>
      optTruthy item.format with
  | none => simp [phase1AiCase, hk1, hk2, hk3, hraw]
  | some f =>
    have hval := validateAiFormula_self_reference amb (sliceAfterEq f) v
      st.variableValues hv (hc f hraw)
    simp only [phase1AiCase, hraw, hvar, hval]
    simp [hk1, hk2, hk3, hval]

/-! ### C2: the sum branch of the single top-down pass -/

theorem find_append_of_some {α : Type} {p : α → Bool} {l₁ : List α}
    (l₂ : List α) {x : α} (h : List.find? p l₁ = some x) :
    List.find? p (l₁ ++ l₂) = some x := by
  induction l₁ with
  | nil => simp at h
  | cons a t ih =>
    by_cases ha : p a = true
    · rw [List.find?_cons_of_pos _ ha] at h
      rw [List.cons_append, List.find?_cons_of_pos _ ha]
      exact h
    · rw [List.find?_cons_of_neg _ ha] at h
      rw [List.cons_append, List.find?_cons_of_neg _ ha]
      exact ih h

theorem find_append_of_none {α : Type} {p : α → Bool} {l₁ : List α}
    (l₂ : List α) (h : List.find? p l₁ = none) :
    List.find? p (l₁ ++ l₂) = List.find? p l₂ := by
  induction l₁ with
  | nil => rfl
  | cons a t ih =>
    by_cases ha : p a = true
    · rw [List.find?_cons_of_pos _ ha] at h
      simp at h
    · rw [List.find?_cons_of_neg _ ha] at h
      rw [List.cons_append, List.find?_cons_of_neg _ ha]
      exact ih h

theorem resmap_find_map_ne (o : ResMap) (k j : ℕ) (v : LineResult)
    (h : j ≠ k) :
    List.find? (fun p => p.1 = j)
      (List.map (fun p => if p.1 = k then (k, v) else p) o) =
    List.find? (fun p => p.1 = j) o := by
  induction o with
  | nil => rfl
  | cons p t ih =>
    by_cases hp : p.1 = k
    · rw [List.map_cons, if_pos hp,
        List.find?_cons_of_neg _ (by simp; omega),
        List.find?_cons_of_neg _ (by simp [hp]; omega)]
      exact ih
    · rw [List.map_cons, if_neg hp]
      by_cases hj : p.1 = j
      · rw [List.find?_cons_of_pos _ (by simpa using hj),
          List.find?_cons_of_pos _ (by simpa using hj)]
      · rw [List.find?_cons_of_neg _ (by simpa using hj),
          List.find?_cons_of_neg _ (by simpa using hj)]
        exact ih

theorem resmap_find_map_eq (o : ResMap) (k : ℕ) (v : LineResult)
    (h : List.any o (fun p => p.1 = k) = true) :
    List.find? (fun p => p.1 = k)
      (List.map (fun p => if p.1 = k then (k, v) else p) o) = some (k, v) := by
  induction o with
  | nil => simp at h
  | cons p t ih =>
    by_cases hp : p.1 = k
    · rw [List.map_cons, if_pos hp, List.find?_cons_of_pos _ (by simp)]
    · rw [List.map_cons, if_neg hp,
        List.find?_cons_of_neg _ (by simpa using hp)]
      apply ih
      rcases List.any_eq_true.mp h with ⟨x, hx, hxk⟩
      rcases List.mem_cons.mp hx with rfl | hx'
      · exact absurd (by simpa using hxk) hp
      · exact List.any_eq_true.mpr ⟨x, hx', hxk⟩

theorem resmap_get_set_self (o : ResMap) (k : ℕ) (v : LineResult) :
    ResMap.get? (ResMap.set o k v) k = some v := by
  unfold ResMap.set
  by_cases h : List.any o (fun p => p.1 = k) = true
  · rw [if_pos h]
    unfold ResMap.get?
    rw [resmap_find_map_eq o k v h]
    rfl
  · rw [if_neg h]
    unfold ResMap.get?
    have hn : List.find? (fun p => (p.1 = k : Bool)) o = none := by
      rw [List.find?_eq_none]
      intro x hx hk
      exact h (List.any_eq_true.mpr ⟨x, hx, hk⟩)
    rw [show List.append o [(k, v)] = o ++ [(k, v)] from rfl,
      find_append_of_none _ hn]
    simp [List.find?]

theorem resmap_get_set_ne (o : ResMap) (k j : ℕ) (v : LineResult)
    (h : j ≠ k) :
    ResMap.get? (ResMap.set o k v) j = ResMap.get? o j := by
  unfold ResMap.set
  by_cases hk : List.any o (fun p => p.1 = k) = true
  · rw [if_pos hk]
    unfold ResMap.get?
    rw [resmap_find_map_ne o k j v h]
  · rw [if_neg hk]
    unfold ResMap.get?
    cases hf : List.find? (fun p => (p.1 = j : Bool)) o with
    | some x =>
      rw [show List.append o [(k, v)] = o ++ [(k, v)] from rfl,
        find_append_of_some _ hf]
    | none =>
      rw [show List.append o [(k, v)] = o ++ [(k, v)] from rfl,
        find_append_of_none _ hf]
      simp [List.find?, Ne.symm h]

theorem assignTry_tag {amb : Ambient} {st : DocState} {i : ℕ}
    {raw trimmed : String} {a : LineAct}
    (h : assignTry amb st i raw trimmed = some a) : a.tag = extractTag raw := by
  unfold assignTry at h
  simp only [] at h
  repeat' split at h
  all_goals cases h
  all_goals rfl

theorem labeledTry_tag {amb : Ambient} {st : DocState} {i : ℕ}
    {raw trimmed : String} {a : LineAct}
    (h : labeledTry amb st i raw trimmed = some a) : a.tag = extractTag raw := by
  unfold labeledTry at h
  simp only [] at h
  repeat' split at h
  all_goals cases h
  all_goals rfl

theorem bareTry_tag {amb : Ambient} {st : DocState} {raw : String}
    {a : LineAct}
    (h : bareTry amb st raw = some a) : a.tag = extractTag raw := by
  unfold bareTry at h
  simp only [] at h
  repeat' split at h
  all_goals cases h
  all_goals rfl

theorem lineAction_tag (amb : Ambient) (st : DocState) (i : ℕ) (raw : String) :
    (lineAction amb st i raw).tag = lineTagSpec raw := by
  unfold lineAction lineTagSpec
  by_cases hskip : (jsTrim raw = "" || "//".data.isPrefixOf (jsTrim raw).data) = true
  · simp only [hskip, if_true]
    rfl
  · simp only [hskip, if_false]
    cases hs : sumLineMatch (stripInlineComment (jsTrim raw)) with
    | some t => rfl
    | none =>
      cases ha : assignTry amb st i raw (jsTrim raw) with
      | some a => exact assignTry_tag ha
      | none =>
        cases hl : labeledTry amb st i raw (jsTrim raw) with
        | some a => exact labeledTry_tag hl
        | none =>
          cases hb : bareTry amb st raw with
          | some a => exact bareTry_tag hb
          | none => rfl

theorem lineAction_sum (amb : Ambient) (st : DocState) (i : ℕ) (raw : String)
    (T : String)
    (hskip : ¬((jsTrim raw = "" || "//".data.isPrefixOf (jsTrim raw).data) = true))
    (hsum : sumLineMatch (stripInlineComment (jsTrim raw)) = some T) :
    lineAction amb st i raw = sumAct st T := by
  unfold lineAction
  simp only [hskip, hsum]
  simp

theorem evalDocStep_tags (amb : Ambient) (st : DocState) (i : ℕ)
    (raw : String) :
    (evalDocStep amb st i raw).lineTags =
      st.lineTags ++ [(lineAction amb st i raw).tag] := rfl

theorem evalDocStep_vals (amb : Ambient) (st : DocState) (i : ℕ)
    (raw : String) :
    (evalDocStep amb st i raw).lineValues =
      st.lineValues ++ [(lineAction amb st i raw).result?.bind (·.value)] := rfl

theorem evalDocStep_results_ne (amb : Ambient) (st : DocState) (i j : ℕ)
    (raw : String) (h : j ≠ i) :
    ResMap.get? (evalDocStep amb st i raw).results j =
      ResMap.get? st.results j := by
  unfold evalDocStep
  cases hr : (lineAction amb st i raw).result? with
  | some r =>
    simp only [hr]
    exact resmap_get_set_ne st.results i j r h
  | none => simp only [hr]

theorem evalDocStep_result_at (amb : Ambient) (st : DocState) (i : ℕ)
    (raw : String) (hfresh : ResMap.get? st.results i = none) :
    ResMap.get? (evalDocStep amb st i raw).results i =
      (lineAction amb st i raw).result? := by
  unfold evalDocStep
  cases hr : (lineAction amb st i raw).result? with
  | some r =>
    simp only [hr]
    exact resmap_get_set_self st.results i r
  | none =>
    simp only [hr]
    exact hfresh

theorem DocInv_step (amb : Ambient) (st : DocState) (pre : List String)
    (raw : String) (h : DocInv st pre) :
    DocInv (evalDocStep amb st pre.length raw) (pre ++ [raw]) := by
  obtain ⟨hlt, hlv, hfresh, hjs⟩ := h
  refine ⟨?_, ?_, ?_, ?_⟩
  · rw [evalDocStep_tags]
    simp [hlt]
  · rw [evalDocStep_vals]
    simp [hlv]
  · intro k hk
    rw [List.length_append] at hk
    simp only [List.length_cons, List.length_nil] at hk
    rw [evalDocStep_results_ne amb st pre.length k raw (by omega)]
    exact hfresh k (by omega)
  · intro j hj
    rw [List.length_append] at hj
    simp only [List.length_cons, List.length_nil] at hj
    by_cases hji : j < pre.length
    · obtain ⟨ht, hv⟩ := hjs j hji
      have hgd : (pre ++ [raw]).getD j "" = pre.getD j "" := by
        rw [List.getD_eq_getElem?_getD, List.getD_eq_getElem?_getD,
          List.getElem?_append, if_pos hji]
      constructor
      · rw [evalDocStep_tags, List.getElem?_append,
          if_pos (show j < st.lineTags.length by omega), ht, hgd]
      · rw [evalDocStep_vals, List.getElem?_append,
          if_pos (show j < st.lineValues.length by omega), hv,
          evalDocStep_results_ne amb st pre.length j raw (by omega)]
    · have hje : j = pre.length := by omega
      subst hje
      have hgd : (pre ++ [raw]).getD pre.length "" = raw := by
        rw [List.getD_eq_getElem?_getD, List.getElem?_append_right le_rfl]
        simp
      constructor
      · rw [evalDocStep_tags, hgd, List.getElem?_append_right (le_of_eq hlt),
          hlt, Nat.sub_self]
        simp [lineAction_tag]
      · rw [evalDocStep_vals, List.getElem?_append_right (le_of_eq hlv),
          hlv, Nat.sub_self,
          evalDocStep_result_at amb st pre.length raw (hfresh pre.length le_rfl)]
        simp

theorem evalDocAux_append (amb : Ambient) (xs ys : List String) :
    ∀ (st : DocState) (i : ℕ),
    evalDocAux amb st i (xs ++ ys) =
      evalDocAux amb (evalDocAux amb st i xs) (i + xs.length) ys := by
  induction xs with
  | nil =>
    intro st i
    simp [evalDocAux]
  | cons x t ih =>
    intro st i
    simp only [List.cons_append, evalDocAux, List.append_eq]
    rw [ih]
    have hidx : i + 1 + t.length = i + (x :: t).length := by
      simp [List.length_cons]
      omega
    rw [hidx]

theorem evalDocAux_results_lt (amb : Ambient) (ys : List String) :
    ∀ (st : DocState) (i j : ℕ), j < i →
    ResMap.get? (evalDocAux amb st i ys).results j =
      ResMap.get? st.results j := by
  induction ys with
  | nil => intro st i j hj; rfl
  | cons y t ih =>
    intro st i j hj
    simp only [evalDocAux]
    rw [ih _ _ _ (by omega)]
    exact evalDocStep_results_ne amb st i j y (by omega)

theorem DocInv_holds (amb : Ambient) (ls : List String) :
    DocInv (evaluateDocumentLines amb ls) ls := by
  induction ls using List.reverseRecOn with
  | nil =>
    refine ⟨rfl, rfl, fun k _ => rfl, fun j hj => absurd hj (by simp)⟩
  | append_singleton pre raw ih =>
    have hsplit : evaluateDocumentLines amb (pre ++ [raw]) =
        evalDocStep amb (evaluateDocumentLines amb pre) pre.length raw := by
      unfold evaluateDocumentLines
      rw [evalDocAux_append]
      simp only [Nat.zero_add]
      rfl
    rw [hsplit]
    exact DocInv_step amb (evaluateDocumentLines amb pre) pre raw ih

theorem foldl_pair_fst {α : Type} (f : (Q × ℕ) → α → (Q × ℕ))
    (g : Q → α → Q) (hfg : ∀ a c x, (f (a, c) x).1 = g a x) :
    ∀ (l : List α) (a : Q) (c : ℕ), (l.foldl f (a, c)).1 = l.foldl g a := by
  intro l
  induction l with
  | nil => intro a c; rfl
  | cons x t ih =>
    intro a c
    simp only [List.foldl_cons]
    calc (t.foldl f (f (a, c) x)).1
        = (t.foldl f ((f (a, c) x).1, (f (a, c) x).2)).1 := by rw [Prod.mk.eta]
      _ = t.foldl g (f (a, c) x).1 := ih _ _
      _ = t.foldl g (g a x) := by rw [hfg]

theorem zip_eq_range_map {α β : Type} (d₁ : α) (d₂ : β) :
    ∀ (xs : List α) (ys : List β), xs.length = ys.length →
    xs.zip ys =
      (List.range xs.length).map (fun j => (xs.getD j d₁, ys.getD j d₂)) := by
  intro xs
  induction xs with
  | nil => intro ys h; rfl
  | cons x t ih =>
    intro ys h
    cases ys with
    | nil => simp at h
    | cons y u =>
      simp only [List.zip_cons_cons, List.length_cons]
      rw [List.range_succ_eq_map]
      simp only [List.map_cons, List.map_map]
      congr 1
      rw [ih u (by simpa using h)]
      apply List.map_congr_left
      intro j hj
      simp [Function.comp, List.getD_cons_succ]

theorem tagSum_eq_contribSum (st : DocState) (pre : List String) (T : String)
    (h : DocInv st pre) :
    (tagSum st.lineTags st.lineValues T).1 =
      contribSum st.results pre T pre.length := by
  obtain ⟨hlt, hlv, _, hjs⟩ := h
  unfold tagSum contribSum
  rw [zip_eq_range_map none none st.lineTags st.lineValues
    (hlt.trans hlv.symm), hlt]
  rw [foldl_pair_fst _
    (fun a p =>
      match p with
      | (some t, some v) => if t = T then a + v else a
      | _ => a)
    (by
      intro a c x
      rcases x with ⟨tOpt, vOpt⟩
      rcases tOpt with _ | t
      · rfl
      · rcases vOpt with _ | v
        · rfl
        · by_cases ht : t = T
          · simp [ht]
          · simp [ht])]
  rw [List.foldl_map]
  apply List.foldl_ext
  intro a j hj
  rw [List.mem_range] at hj
  obtain ⟨ht, hv⟩ := hjs j hj
  have ht2 : st.lineTags.getD j none = lineTagSpec (pre.getD j "") := by
    rw [List.getD_eq_getElem?_getD, ht]
    rfl
  have hv2 : st.lineValues.getD j none =
      (ResMap.get? st.results j).bind (·.value) := by
    rw [List.getD_eq_getElem?_getD, hv]
    rfl
  rw [ht2, hv2]
  cases htag : lineTagSpec (pre.getD j "") with
  | none => simp
  | some t =>
    cases hval : (ResMap.get? st.results j).bind (·.value) with
    | none =>
      by_cases ht3 : t = T
      · simp [ht3]
      · simp [ht3]
    | some v =>
      by_cases ht3 : t = T
      · simp [ht3]
        rfl
      · simp [ht3]

theorem contribSum_congr (res res' : ResMap) (ls ls' : List String)
    (T : String) (i : ℕ)
    (hres : ∀ j, j < i → ResMap.get? res j = ResMap.get? res' j)
    (hls : ∀ j, j < i → ls.getD j "" = ls'.getD j "") :
    contribSum res ls T i = contribSum res' ls' T i := by
  unfold contribSum
  apply List.foldl_ext
  intro a j hj
  rw [List.mem_range] at hj
  rw [hres j hj, hls j hj]

theorem evalLines_take_succ (amb : Ambient) (ls : List String) (i : ℕ)
    (hi : i < ls.length) :
    evaluateDocumentLines amb (ls.take (i + 1)) =
      evalDocStep amb (evaluateDocumentLines amb (ls.take i)) i
        (ls.getD i "") := by
  have h1 : ls.take (i + 1) = ls.take i ++ [ls.getD i ""] := by
    rw [List.take_succ]
    cases hx : ls[i]? with
    | none =>
      rw [List.getElem?_eq_none_iff] at hx
      omega
    | some x => simp [List.getD_eq_getElem?_getD, hx]
  rw [h1]
  unfold evaluateDocumentLines
  rw [evalDocAux_append]
  have hlen : (ls.take i).length = i := by
    simp [List.length_take]
    omega
  rw [hlen]
  simp only [Nat.zero_add]
  rfl

theorem evalLines_split (amb : Ambient) (ls : List String) (n : ℕ)
    (hn : n ≤ ls.length) :
    evaluateDocumentLines amb ls =
      evalDocAux amb (evaluateDocumentLines amb (ls.take n)) n (ls.drop n) := by
  conv_lhs => rw [← List.take_append_drop n ls]
  unfold evaluateDocumentLines
  rw [evalDocAux_append]
  have hlen : 0 + (ls.take n).length = n := by
    simp [List.length_take]
    omega
  rw [hlen]

theorem evalLines_result_stable (amb : Ambient) (ls : List String) (i : ℕ)
    (hi : i < ls.length) :
    ResMap.get? (evaluateDocumentLines amb ls).results i =
      ResMap.get? (evaluateDocumentLines amb (ls.take (i + 1))).results i := by
  rw [evalLines_split amb ls (i + 1) (by omega)]
  exact evalDocAux_results_lt amb _ _ _ _ (by omega)

/-! ## The claims -/

/-- C3: for every AI rewrite whose right-hand side, after normalization
(stripping non-alphanumerics and lowercasing both strings), contains the
normalized name of the variable the line defines, `validateAiFormula`
returns `valid: false`; and the Reconciliation Engine never evaluates such
a right-hand side: both the merge pass (Case B) and the iterative AI
re-evaluation loop leave the line's state unchanged. -/
theorem c3_self_reference_rejected :
    (∀ (amb : Ambient) (f v : String) (av : JsObj), v ≠ "" →
      containsSub (normAlnum f) (normAlnum v) = true →
      (validateAiFormula amb f (some v) av).valid = false) ∧
    (∀ (amb : Ambient) (lines : List String) (ai : AiMap) (st : RecState)
      (ch : Bool) (idx : ℕ) (item : AiItem) (v : String),
      AiMap.get? ai idx = some item →
      varNameOfLine (lines.getD idx "") = some v → v ≠ "" →
      (∀ f, (optTruthy item.rhs <|> optTruthy item.formula) = some f →
        containsSub (normAlnum (sliceAfterEq f)) (normAlnum v) = true) →
      aiPassLine amb lines ai (st, ch) idx = (st, ch)) ∧
    (∀ (amb : Ambient) (lines : List String) (localResults : ResMap)
      (item : AiItem) (st : RecState) (idx : ℕ) (v : String),
      item.kind ≠ some "header" → item.kind ≠ some "note" →
      item.kind ≠ some "variable" →
      varNameOfLine (lines.getD idx "") = some v → v ≠ "" →
      (∀ f,
        (optTruthy item.rhs <|> optTruthy item.formula <|>
          optTruthy item.format) = some f →
        containsSub (normAlnum (sliceAfterEq f)) (normAlnum v) = true) →
      phase1AiCase amb lines localResults item st idx = st) :=
  ⟨fun amb f v av hv hc => validateAiFormula_self_reference amb f v av hv hc,
   fun amb lines ai st ch idx item v hget hvar hv hc =>
     aiPassLine_selfref_unchanged amb lines ai st ch idx item v hget hvar hv hc,
   fun amb lines localResults item st idx v hk1 hk2 hk3 hvar hv hc =>
     phase1AiCase_selfref_unchanged amb lines localResults item st idx v
       hk1 hk2 hk3 hvar hv hc⟩

/-- C3 witness: the rewrite `Staffing * 2` for the line defining `Staffing`
is rejected by the validator, and both engine passes leave the state
unchanged. -/
theorem c3_witness :
    (validateAiFormula pureAmbient "Staffing * 2" (some "Staffing") []).valid =
      false ∧
    aiPassLine pureAmbient c3wLines c3wAi (c3wSt, false) 0 = (c3wSt, false) ∧
    phase1AiCase pureAmbient c3wLines [] c3wItem c3wSt 0 = c3wSt :=
  ⟨c3_self_reference_rejected.1 pureAmbient "Staffing * 2" "Staffing" []
     (by decide) (by decide),
   c3_self_reference_rejected.2.1 pureAmbient c3wLines c3wAi c3wSt false 0
     c3wItem "Staffing" (by decide) (by decide) (by decide)
     (fun f hf => by
       have hf2 : f = "Staffing * 2" := by
         simpa [c3wItem, optTruthy] using hf.symm
       subst hf2
       decide),
   c3_self_reference_rejected.2.2 pureAmbient c3wLines [] c3wItem c3wSt 0
     "Staffing" (by decide) (by decide) (by decide) (by decide) (by decide)
     (fun f hf => by
       have hf2 : f = "Staffing * 2" := by
         simpa [c3wItem, optTruthy] using hf.symm
       subst hf2
       decide)⟩

/-- C5: whenever an AI response fails schema validation (meta missing,
doc_id mismatched, lines_hash mismatched, or results missing/non-object),
the entire response is discarded: the stored aiLogic map and the displayed
computed results are exactly what they were before the response arrived. -/
theorem c5_invalid_response_discarded (amb : Ambient) (text : String)
    (parsed : JValue) (docId linesHash : String) (st : UiState)
    (hv : (validateAiResponseSchema parsed docId linesHash).valid = false) :
    handleAiResponse amb text parsed docId linesHash st = st := by
  simp [handleAiResponse, hv]

/-- C5 witness: a response with no `meta` field fails validation and leaves
the state untouched. -/
theorem c5_witness :
    (validateAiResponseSchema (JValue.jobj []) "d" "h").valid = false ∧
    handleAiResponse pureAmbient "x = 5" (JValue.jobj []) "d" "h"
      ⟨c1Ai, [(0, c1LocalRes)]⟩ = ⟨c1Ai, [(0, c1LocalRes)]⟩ :=
  ⟨by decide,
   c5_invalid_response_discarded pureAmbient "x = 5" (JValue.jobj []) "d" "h"
     ⟨c1Ai, [(0, c1LocalRes)]⟩ (by decide)⟩

/-- C1: the spec says a line resolvable locally always keeps the local
result (`source: local`), never replaced by an AI rewrite.  The merge pass
honours this (Case A), and the code's own comment in the iterative AI
re-evaluation loop says "we skip if local is valid … this effectively makes
local win" — but the skip is absent there, so a validated AI rewrite for a
locally-resolved line overwrites the local result.  For the document
`x = 5` with AI rewrite `rhs: "7"` at line 0, the local result is
`(5, local)` while the reconciled result is `(7, ai)`. -/
theorem c1_local_overwritten_by_ai :
    (ResMap.get? (evaluateDocumentLines pureAmbient c1Lines).results 0).map
        (fun r => (r.value, r.source)) = some (some 5, some "local") ∧
    (ResMap.get? (reconcileLines pureAmbient c1Lines c1Ai) 0).map
        (fun r => (r.value, r.source)) = some (some 7, some "ai") := by
  constructor
  · decide
  · have hdoc : evaluateDocumentLines pureAmbient c1Lines = c1Doc := by decide
    have hp1 : phase1All pureAmbient c1Lines c1Doc.results c1Ai
        (initRecState c1Doc) = c1S1 := by decide
    have hsum : sumPass c1Lines c1S1 = (c1S1, false) := by decide
    have hai1 : aiPass pureAmbient c1Lines c1Ai c1S1 = (c1S2, true) := by decide
    have hai2 : aiPass pureAmbient c1Lines c1Ai c1S2 = (c1S2, true) := by decide
    have hrec : reconcileLines pureAmbient c1Lines c1Ai = c1S2.finalResults := by
      simp only [reconcileLines]
      rw [hdoc, hp1, loopCap_stop hsum, loopCap_go hai1, loopCap_go hai2,
        loopCap_go hai2, loopCap_go hai2, loopCap_go hai2]
      rfl
    rw [hrec]
    decide

/-- C4 counterexample: the claim says the evaluator built by
`buildEvaluator` returns null on a division producing a non-finite result.
It does not: `1/0` does not throw in JavaScript, so the evaluator returns
`Infinity` (a non-null value); the `Number.isFinite` filtering happens in
the callers, not in the evaluator. -/
theorem c4_counterexample :
    buildEvaluator pureAmbient [] "1/0" ≠ none ∧
    buildEvaluator pureAmbient [] "1/0" = some .inf := by
  constructor
  · decide
  · decide

/-- C4 (amended): for every expression string and scope, the evaluation
function built by `buildEvaluator` never throws to its caller (it is a total
function into `Option`), and it returns null on a syntax error and on a
reference to an identifier bound neither in the scope, nor in SAFE_FUNCS,
nor in the globals; a division producing a non-finite result instead yields
the non-finite value itself (e.g. `Infinity` for `1/0`), which callers
discard via `Number.isFinite`. -/
theorem c4_evaluator_error_handling :
    (∀ (amb : Ambient) (scope : JsObj) (expr : String),
      parseJs expr = none → buildEvaluator amb scope expr = none) ∧
    (∀ (amb : Ambient) (scope : JsObj) (expr : String) (e : JExpr) (n : String),
      parseJs expr = some e → n ∈ exprNames e →
      localResolver amb scope n = none →
      buildEvaluator amb scope expr = none) ∧
    buildEvaluator pureAmbient [] "1/0" = some .inf := by
  refine ⟨?_, ?_, by decide⟩
  · intro amb scope expr h
    simp only [buildEvaluator, h]
    split <;> rfl
  · intro amb scope expr e n hp hm hn
    simp only [buildEvaluator, hp]
    split
    · exact evalE_unbound amb (localResolver amb scope) e n hm hn
    · rfl

/-- C4 witness: the amended statement at concrete inputs — the syntax error
`((` and the unbound identifier `zzz` both evaluate to null. -/
theorem c4_witness :
    buildEvaluator pureAmbient [] "((" = none ∧
    buildEvaluator pureAmbient [] "zzz" = none :=
  ⟨c4_evaluator_error_handling.1 pureAmbient [] "((" rfl,
   c4_evaluator_error_handling.2.1 pureAmbient [] "zzz" (.name "zzz") "zzz"
     rfl (by decide) (by decide)⟩

/-- C6: reconciliation terminates.  Each of the tagged-sum recomputation
loop and the AI-dependency re-evaluation loop runs at most 5 full passes and
stops early only after a full pass with no change; and for the cyclic
two-line chain `A = B` / `B = A` with mutually referring AI rewrites,
reconciliation terminates with both lines carrying no value. -/
theorem c6_reconciliation_terminates :
    (∀ (lines : List String) (st : RecState), ∃ m, m ≤ 5 ∧ 1 ≤ m ∧
      loopCap (sumPass lines) 5 st = iterPass (sumPass lines) m st ∧
      (m < 5 → (sumPass lines (iterPass (sumPass lines) (m - 1) st)).2 = false)) ∧
    (∀ (amb : Ambient) (lines : List String) (ai : AiMap) (st : RecState),
      ∃ m, m ≤ 5 ∧ 1 ≤ m ∧
      loopCap (aiPass amb lines ai) 5 st = iterPass (aiPass amb lines ai) m st ∧
      (m < 5 →
        (aiPass amb lines ai (iterPass (aiPass amb lines ai) (m - 1) st)).2 =
          false)) ∧
    reconcileLines pureAmbient c6Lines c6Ai = [] ∧
    ResMap.get? (reconcileLines pureAmbient c6Lines c6Ai) 0 = none ∧
    ResMap.get? (reconcileLines pureAmbient c6Lines c6Ai) 1 = none := by
  have hcyc : reconcileLines pureAmbient c6Lines c6Ai = [] := by
    have hdoc : evaluateDocumentLines pureAmbient c6Lines = c6Doc := by decide
    have hp1 : phase1All pureAmbient c6Lines c6Doc.results c6Ai
        (initRecState c6Doc) = c6S := by decide
    have hsum : sumPass c6Lines c6S = (c6S, false) := by decide
    have hai : aiPass pureAmbient c6Lines c6Ai c6S = (c6S, false) := by decide
    simp only [reconcileLines]
    rw [hdoc, hp1, loopCap_stop hsum, loopCap_stop hai]
    rfl
  refine ⟨?_, ?_, hcyc, ?_, ?_⟩
  · intro lines st
    obtain ⟨m, h1, h2, h3, h4⟩ := loopCap_spec (sumPass lines) 5 st
    exact ⟨m, h1, h2 (by omega), h3, h4⟩
  · intro amb lines ai st
    obtain ⟨m, h1, h2, h3, h4⟩ := loopCap_spec (aiPass amb lines ai) 5 st
    exact ⟨m, h1, h2 (by omega), h3, h4⟩
  · rw [hcyc]
    rfl
  · rw [hcyc]
    rfl

/-- C7: variable substitution replaces longer bound names first: with
`"Total" = 10` and `"Total Cost" = 50`, substituting into
`"Total Cost + 1"` yields `"50 + 1"`, which evaluates to `51` (not `11`,
and not a failure). -/
theorem c7_longest_name_first_substitution :
    substituteVariables "Total Cost + 1" [("Total", 10), ("Total Cost", 50)] =
      "50 + 1" ∧
    buildEvaluator pureAmbient []
        (substituteVariables "Total Cost + 1"
          [("Total", 10), ("Total Cost", 50)]) = some (.num 51) := by
  constructor
  · decide
  · decide

/-- C8: the spec calls `evaluateDocument` a pure function of the document
text, but the `Function` constructor gives evaluated expressions ambient
global access: the document `Math.random()` is classified as math and
evaluates to whatever the host RNG returns, so two runs of the identical
text under different ambient states produce different result maps. -/
theorem c8_ambient_dependence :
    (ResMap.get? (evaluateDocumentLines (randAmbient (mkQ 1 2)) c8Lines).results
        0).bind (·.value) = some (mkQ 1 2) ∧
    (ResMap.get? (evaluateDocumentLines (randAmbient (mkQ 1 4)) c8Lines).results
        0).bind (·.value) = some (mkQ 1 4) ∧
    (evaluateDocumentLines (randAmbient (mkQ 1 2)) c8Lines).results ≠
      (evaluateDocumentLines (randAmbient (mkQ 1 4)) c8Lines).results := by
  refine ⟨by decide, by decide, by decide⟩

/-- C9: a `sum: T` line registers its own computed value under tag `T`
(it pushes `T` and its sum onto the per-line lists), so in a document with
two `sum: food` lines the second sum counts the first sum line's value: for
tagged values 1 and 2, the first sum is 3 and the second is 6 — the
underlying tagged values are included twice. -/
theorem c9_sum_line_registers_own_tag :
    (ResMap.get? (evaluateDocumentLines pureAmbient c9Lines).results 2).bind
        (·.value) = some 3 ∧
    (evaluateDocumentLines pureAmbient c9Lines).lineTags.get? 2 =
      some (some "food") ∧
    (evaluateDocumentLines pureAmbient c9Lines).lineValues.get? 2 =
      some (some 3) ∧
    (ResMap.get? (evaluateDocumentLines pureAmbient c9Lines).results 3).bind
        (·.value) = some 6 := by
  refine ⟨by decide, by decide, by decide, by decide⟩

/-- C10: `preprocessExpression` strips thousands-separator commas only from
numbers preceded by `$`: `1,200` keeps its comma while `$1,200` becomes
`1200`; consequently `Rent = 1,200` evaluates via the JavaScript comma
operator to 200, while `Rent = $1,200` evaluates to 1200. -/
theorem c10_currency_comma_stripping :
    preprocessExpression "1,200" = "1,200" ∧
    preprocessExpression "$1,200" = "1200" ∧
    (ResMap.get? (evaluateDocumentLines pureAmbient ["Rent = 1,200"]).results
        0).bind (·.value) = some 200 ∧
    (ResMap.get? (evaluateDocumentLines pureAmbient ["Rent = $1,200"]).results
        0).bind (·.value) = some 1200 := by
  refine ⟨by decide, by decide, by decide, by decide⟩

/-- Tag-sum correctness of the local engine in isolation. If line `i` is
the first `sum: T` line of the document, then `evaluateDocument` records a
result for line `i` whose value is exactly the left-to-right sum of the
resolved values of the lines strictly before `i` that carry tag `T`, and
that result is unaffected by the lines after the sum line: any document
whose first `i + 1` lines agree with this one records the identical result
at `i`.  The reconciled results do not enjoy this property; see the C2
theorem below. -/
theorem sum_line_local_correct (amb : Ambient) (ls : List String)
    (T : String) (i : ℕ) (hi : i < ls.length)
    (hsum : sumTagOfLine (ls.getD i "") = some T)
    (hfirst : ∀ j, j < i → sumTagOfLine (ls.getD j "") ≠ some T) :
    ∃ r, ResMap.get? (evaluateDocumentLines amb ls).results i = some r ∧
      r.value =
        some (contribSum (evaluateDocumentLines amb ls).results ls T i) ∧
      ∀ ls₂ : List String, ls₂.take (i + 1) = ls.take (i + 1) →
        ResMap.get? (evaluateDocumentLines amb ls₂).results i = some r := by
  have hstep := evalLines_take_succ amb ls i hi
  have hInv := DocInv_holds amb (ls.take i)
  have hpre : (ls.take i).length = i := by
    simp [List.length_take]
    omega
  have hcond : ¬((jsTrim (ls.getD i "") = "" ||
        "//".data.isPrefixOf (jsTrim (ls.getD i "")).data) = true) ∧
      sumLineMatch (stripInlineComment (jsTrim (ls.getD i ""))) = some T := by
    unfold sumTagOfLine at hsum
    by_cases hc : (jsTrim (ls.getD i "") = "" ||
        "//".data.isPrefixOf (jsTrim (ls.getD i "")).data) = true
    · rw [if_pos hc] at hsum
      exact absurd hsum (by simp)
    · rw [if_neg hc] at hsum
      exact ⟨hc, hsum⟩
  have hact : lineAction amb (evaluateDocumentLines amb (ls.take i)) i
      (ls.getD i "") = sumAct (evaluateDocumentLines amb (ls.take i)) T :=
    lineAction_sum amb _ i _ T hcond.1 hcond.2
  have hfresh :
      ResMap.get? (evaluateDocumentLines amb (ls.take i)).results i = none :=
    hInv.2.2.1 i (le_of_eq hpre)
  have hres_i : ResMap.get?
      (evaluateDocumentLines amb (ls.take (i + 1))).results i =
      (sumAct (evaluateDocumentLines amb (ls.take i)) T).result? := by
    rw [hstep, evalDocStep_result_at amb _ i _ hfresh, hact]
  obtain ⟨r, hr, hrv⟩ : ∃ r, ResMap.get?
      (evaluateDocumentLines amb (ls.take (i + 1))).results i = some r ∧
      r.value = some (tagSum
        (evaluateDocumentLines amb (ls.take i)).lineTags
        (evaluateDocumentLines amb (ls.take i)).lineValues T).1 := by
    rw [hres_i]
    exact ⟨_, rfl, rfl⟩
  refine ⟨r, ?_, ?_, ?_⟩
  · rw [evalLines_result_stable amb ls i hi]
    exact hr
  · rw [hrv, tagSum_eq_contribSum _ (ls.take i) T hInv, hpre]
    congr 1
    apply contribSum_congr
    · intro j hj
      rw [evalLines_split amb ls (i + 1) (by omega),
        evalDocAux_results_lt amb _ _ _ _ (by omega), hstep,
        evalDocStep_results_ne amb _ i j _ (by omega)]
    · intro j hj
      rw [List.getD_eq_getElem?_getD, List.getD_eq_getElem?_getD,
        List.getElem?_take, if_pos hj]
  · intro ls₂ htake
    have hlen2 : i + 1 ≤ ls₂.length := by
      have hc := congrArg List.length htake
      simp only [List.length_take] at hc
      omega
    rw [evalLines_result_stable amb ls₂ i (by omega), htake]
    exact hr

/-- Instance of the local tag-sum property: in the document
`["1 #a", "sum: a", "2 #a"]` the `sum: a` line at index 1 gets the sum of
the tagged lines before it, and any document with the same first two lines
records the same result. -/
theorem sum_line_local_correct_instance :
    ∃ r, ResMap.get?
        (evaluateDocumentLines pureAmbient c2wLines).results 1 = some r ∧
      r.value = some (contribSum
        (evaluateDocumentLines pureAmbient c2wLines).results c2wLines "a" 1) ∧
      ∀ ls₂ : List String, ls₂.take 2 = c2wLines.take 2 →
        ResMap.get? (evaluateDocumentLines pureAmbient ls₂).results 1 =
          some r :=
  sum_line_local_correct pureAmbient c2wLines "a" 1 (by decide) (by decide)
    (fun j hj => by
      have hj0 : j = 0 := by omega
      subst hj0
      decide)

/-- C2: the claimed invariant -- the value of the first `sum: T` line
equals the sum of the resolved values of the lines before it carrying tag
`T`, in either source -- fails for the reconciled results, because the
tagged-sum recomputation loop runs strictly before the iterative AI
re-evaluation loop and sums are never recomputed afterwards.  In the
document `["alpha something #food", "sum: food", "Beta = two"]` with AI
rewrites `Beta + 1` for line 0 and `2` for line 2, line 1 is the first
(and only) `sum: food` line; line 0 carries `#food` but its rewrite only
validates once the AI loop has resolved `Beta`, so the reconciled line 0
has value 3 while the reconciled sum line keeps the stale value 0 instead
of the sum 3 of the prior `#food` contributions. -/
theorem c2_reconciled_sum_stale :
    sumTagOfLine (c2Lines.getD 1 "") = some "food" ∧
    sumTagOfLine (c2Lines.getD 0 "") = none ∧
    lineTagSpec (c2Lines.getD 0 "") = some "food" ∧
    (ResMap.get? (reconcileLines pureAmbient c2Lines c2Ai) 0).bind
      (·.value) = some 3 ∧
    (ResMap.get? (reconcileLines pureAmbient c2Lines c2Ai) 1).bind
      (·.value) = some 0 ∧
    (ResMap.get? (reconcileLines pureAmbient c2Lines c2Ai) 1).bind
        (·.value) ≠
      some (contribSum (reconcileLines pureAmbient c2Lines c2Ai) c2Lines
        "food" 1) := by
  have hdoc : evaluateDocumentLines pureAmbient c2Lines = c2Doc := by decide
  have hp1 : phase1All pureAmbient c2Lines c2Doc.results c2Ai
      (initRecState c2Doc) = c2S1 := by decide
  have hsum1 : sumPass c2Lines c2S1 = (c2S1b, true) := by decide
  have hsum2 : sumPass c2Lines c2S1b = (c2S1b, false) := by decide
  have hai1 : aiPass pureAmbient c2Lines c2Ai c2S1b = (c2S2, true) := by decide
  have hai2 : aiPass pureAmbient c2Lines c2Ai c2S2 = (c2S2, true) := by decide
  have hrec : reconcileLines pureAmbient c2Lines c2Ai = c2S2.finalResults := by
    simp only [reconcileLines]
    rw [hdoc, hp1, loopCap_go hsum1, loopCap_stop hsum2, loopCap_go hai1,
      loopCap_go hai2, loopCap_go hai2, loopCap_go hai2, loopCap_go hai2]
    rfl
  refine ⟨by decide, by decide, by decide, ?_, ?_, ?_⟩
  · rw [hrec]
    decide
  · rw [hrec]
    decide
  · rw [hrec]
    decide

end SmartMathPad
